import Mathlib

/-!
Verification development for the skript workflow engine.

Shallow embedding of the compiler (expander, lowering, optimizer), the
runtime node semantics (action, fused, join, end), the state stores
(in-memory and the Redis script), and the worker dispatch loop, together
with theorems settling the frozen claims about them.
-/

namespace Skript

/-- Json values as manipulated by the compiler and runtime
(`serde_json::Value`): null, booleans, integers, strings, arrays and
objects (objects kept as association lists of fields). -/
inductive Json where
  | null : Json
  | bool (b : Bool) : Json
  | num (n : Int) : Json
  | str (s : String) : Json
  | arr (xs : List Json) : Json
  | obj (fields : List (String × Json)) : Json

/-- Lookup of a key in a Json object (`Value::get`); `none` on non-objects
or missing keys. -/
def Json.getKey : Json → String → Option Json
  | .obj fields, k => (fields.find? (fun kv => kv.1 == k)).map (·.2)
  | _, _ => none

/-- The `as_u64` view of a Json value: a non-negative integer. -/
def Json.asU64 : Json → Option Nat
  | .num n => if 0 ≤ n then some n.toNat else none
  | _ => none

/-- The `as_str` view of a Json value. -/
def Json.asStr : Json → Option String
  | .str s => some s
  | _ => none

/-- The `as_array` view of a Json value. -/
def Json.asArr : Json → Option (List Json)
  | .arr xs => some xs
  | _ => none

/-- Whether a Json value is a string. -/
def Json.isStr : Json → Bool
  | .str _ => true
  | _ => false

/-- Insert (replace-or-append) a key into a Json object
(`Map::insert` via `as_object_mut`); non-objects are left unchanged. -/
def Json.insertKey : Json → String → Json → Json
  | .obj fields, k, v =>
      if fields.any (fun kv => kv.1 == k) then
        .obj (fields.map (fun kv => if kv.1 == k then (kv.1, v) else kv))
      else
        .obj (fields ++ [(k, v)])
  | j, _, _ => j

/-- Apply a function to the value at a key of a Json object
(`get_mut`); missing keys and non-objects are left unchanged. -/
def Json.modifyKey : Json → String → (Json → Json) → Json
  | .obj fields, k, f =>
      .obj (fields.map (fun kv => if kv.1 == k then (kv.1, f kv.2) else kv))
  | j, _, _ => j

mutual
/-- Authored DSL node (`dsl::Node`): a stable string id plus a tagged
variant. -/
inductive Node where
  | mk (id : String) (kind : NodeType)

/-- Authored DSL node variants (`dsl::NodeType`). -/
inductive NodeType where
  | start : NodeType
  | endNode (output : String) : NodeType
  | function (name : String) (params : List (String × Json)) (output : Option String) : NodeType
  | assign (assignments : List (List (String × Json))) (expression : Option String) : NodeType
  | ifNode (branches : List (List (String × String))) : NodeType
  | parallel (branches : List Branch) : NodeType
  | iteration (collection : String) (item_var : String) : NodeType
  | loopNode (condition : String) : NodeType
  | fork (branch_start_ids : List String) (join_id : String) : NodeType
  | join (expect_count : Nat) : NodeType

/-- A branch of a `Parallel` node (`dsl::Branch`): an ordered list of nodes. -/
inductive Branch where
  | mk (nodes : List Node)
end

/-- The id of an authored node. -/
def Node.id : Node → String
  | .mk i _ => i

/-- The kind of an authored node. -/
def Node.kind : Node → NodeType
  | .mk _ k => k

/-- The node list of a branch. -/
def Branch.nodes : Branch → List Node
  | .mk ns => ns

/-- Authored DSL edge (`dsl::Edge`). -/
structure Edge where
  source : String
  target : String
  condition : Option String
  branch_type : Option String
  branch_index : Option Nat

/-- Authored workflow (`dsl::Workflow`). -/
structure Workflow where
  id : String
  name : String
  /-- Initial variable mapping (source field name: `variables`). -/
  vars : List (String × Json)
  nodes : List Node
  edges : List Edge

/-- Compiled blueprint node (`runtime::blueprint::BlueprintNode`): a kind
string and a Json parameter object. -/
structure BlueprintNode where
  kind : String
  params : Json

/-- Compiled blueprint (`runtime::blueprint::Blueprint`). -/
structure Blueprint where
  id : String
  name : String
  nodes : List BlueprintNode
  start_index : Nat

/-! Expander (`compiler/expander.rs`). -/

/-- The linear edges generated inside a branch (`expand_parallel` step 2):
one plain edge from each branch node to its successor. -/
def pairEdges : List Node → List Edge
  | n1 :: n2 :: rest =>
      { source := n1.id, target := n2.id, condition := none,
        branch_type := none, branch_index := none } :: pairEdges (n2 :: rest)
  | _ => []

/-- Nodes contributed by one branch of a parallel node: the branch's nodes
as-is, or nothing when the branch is empty (`expand_parallel` step 1). -/
def branchNodes (b : Branch) : List Node :=
  if b.nodes.isEmpty then [] else b.nodes

/-- Edges contributed by one branch: the internal linear edges plus the
edge from the branch tail to the join node (`expand_parallel` steps 2-3). -/
def branchEdges (join_id : String) (b : Branch) : List Edge :=
  match b.nodes with
  | [] => []
  | ns =>
      pairEdges ns ++
      [{ source := (ns.getLastD (Node.mk "" .start)).id, target := join_id,
         condition := none, branch_type := none, branch_index := none }]

/-- The head ids of the non-empty branches (`branch_start_ids`). -/
def branchHeads (bs : List Branch) : List String :=
  (bs.filter (fun b => !b.nodes.isEmpty)).map
    (fun b => (b.nodes.headD (Node.mk "" .start)).id)

/-- Edge retargeting of `expand_parallel` step 6: edges that pointed at the
parallel node point at the fork; edges that left it leave the join. -/
def retargetEdge (parallel_id fork_id join_id : String) (e : Edge) : Edge :=
  { e with
    target := if e.target = parallel_id then fork_id else e.target,
    source := if e.source = parallel_id then join_id else e.source }

/-- Expansion of a single parallel node (`Expander::expand_parallel`):
appends the branch nodes and the synthesized fork/join pair to the node
accumulator, appends the branch edges, and retargets every accumulated
edge that referenced the parallel node. -/
def expand_parallel (parallel_id : String) (branches : List Branch)
    (acc : List Node × List Edge) : List Node × List Edge :=
  let fork_id := parallel_id ++ "_fork"
  let join_id := parallel_id ++ "_join"
  let heads := branchHeads branches
  let newNodes :=
    acc.1 ++ branches.flatMap branchNodes ++
    [Node.mk fork_id (.fork heads join_id),
     Node.mk join_id (.join heads.length)]
  let newEdges :=
    (acc.2 ++ branches.flatMap (branchEdges join_id)).map
      (retargetEdge parallel_id fork_id join_id)
  (newNodes, newEdges)

/-- One step of the expansion fold over the authored node list
(`Expander::expand` main loop): parallel nodes are expanded, any other
node is pushed unchanged. -/
def expandStep (acc : List Node × List Edge) (n : Node) : List Node × List Edge :=
  match n.kind with
  | .parallel branches => expand_parallel n.id branches acc
  | _ => (acc.1 ++ [n], acc.2)

/-- `Expander::expand`: fold over the nodes starting from an empty node
list and a copy of the workflow's edges. The Rust function returns
`Result` but never fails. -/
def expand (wf : Workflow) : Workflow :=
  let acc := wf.nodes.foldl expandStep ([], wf.edges)
  { wf with nodes := acc.1, edges := acc.2 }

/-- Whether an authored node is a `Parallel` node. -/
def isParallelNode (n : Node) : Bool :=
  match n.kind with
  | .parallel _ => true
  | _ => false

/-- Whether an authored node is a `Fork` node. -/
def isForkNode (n : Node) : Bool :=
  match n.kind with
  | .fork _ _ => true
  | _ => false

/-- Whether an authored node is a `Join` node. -/
def isJoinNode (n : Node) : Bool :=
  match n.kind with
  | .join _ => true
  | _ => false

/-- The node-list contribution of a single authored node to the expanded
workflow: a parallel node contributes its non-empty branches' nodes
followed by the synthesized fork and join; any other node contributes
itself. -/
def expandOneNodes (n : Node) : List Node :=
  match n.kind with
  | .parallel bs =>
      bs.flatMap branchNodes ++
      [Node.mk (n.id ++ "_fork") (.fork (branchHeads bs) (n.id ++ "_join")),
       Node.mk (n.id ++ "_join") (.join (branchHeads bs).length)]
  | _ => [n]

/-- Branch nodes of a parallel node contain no parallel, fork or join
nodes (one level deep); trivially true for other nodes. -/
def branchesClean (n : Node) : Bool :=
  match n.kind with
  | .parallel bs =>
      bs.all (fun b => b.nodes.all
        (fun m => !isParallelNode m && !isForkNode m && !isJoinNode m))
  | _ => true

/-- A top-level node is either a parallel node or not a fork/join node. -/
def topClean (n : Node) : Bool :=
  isParallelNode n || (!isForkNode n && !isJoinNode n)

theorem expand_nodes_foldl (ns : List Node) :
    ∀ acc : List Node × List Edge,
      (ns.foldl expandStep acc).1 = acc.1 ++ ns.flatMap expandOneNodes := by
  induction ns with
  | nil => intro acc; simp
  | cons n rest ih =>
      intro acc
      rw [List.foldl_cons, ih, List.flatMap_cons]
      cases hcase : n.kind <;>
        simp [expandStep, expandOneNodes, expand_parallel, hcase, List.append_assoc]

theorem expand_nodes_eq (wf : Workflow) :
    (expand wf).nodes = wf.nodes.flatMap expandOneNodes := by
  simpa [expand] using expand_nodes_foldl wf.nodes ([], wf.edges)

theorem countP_flatMap (p : Node → Bool) (f : Node → List Node) :
    ∀ l : List Node,
      (l.flatMap f).countP p = (l.map (fun x => (f x).countP p)).sum := by
  intro l
  induction l with
  | nil => simp
  | cons x xs ih => simp [List.flatMap_cons, List.countP_append, ih]

theorem countP_branch_nodes_zero (p : Node → Bool) (bs : List Branch)
    (h : ∀ b ∈ bs, ∀ m ∈ b.nodes, p m = false) :
    (bs.flatMap branchNodes).countP p = 0 := by
  rw [List.countP_eq_zero]
  intro m hm
  obtain ⟨b, hb, hmb⟩ := List.mem_flatMap.mp hm
  have hmn : m ∈ b.nodes := by
    unfold branchNodes at hmb
    split at hmb
    · simp at hmb
    · exact hmb
  simp [h b hb m hmn]

theorem branchesClean_spec (n : Node) (bs : List Branch)
    (hk : n.kind = .parallel bs) (h : branchesClean n = true) :
    ∀ b ∈ bs, ∀ m ∈ b.nodes,
      isParallelNode m = false ∧ isForkNode m = false ∧ isJoinNode m = false := by
  intro b hb m hm
  unfold branchesClean at h
  rw [hk] at h
  have := (List.all_eq_true.mp ((List.all_eq_true.mp h) b hb)) m hm
  simp only [Bool.and_eq_true, Bool.not_eq_true'] at this
  exact ⟨this.1.1, this.1.2, this.2⟩

theorem expandOne_counts (n : Node)
    (h1 : branchesClean n = true) (h2 : topClean n = true) :
    (expandOneNodes n).countP isParallelNode = 0 ∧
    (expandOneNodes n).countP isForkNode = (if isParallelNode n then 1 else 0) ∧
    (expandOneNodes n).countP isJoinNode = (if isParallelNode n then 1 else 0) := by
  obtain ⟨i, k⟩ := n
  cases k with
  | parallel bs =>
      have hk : (Node.mk i (.parallel bs)).kind = .parallel bs := rfl
      have hp := countP_branch_nodes_zero isParallelNode bs
        (fun b hb m hm => (branchesClean_spec _ bs hk h1 b hb m hm).1)
      have hf := countP_branch_nodes_zero isForkNode bs
        (fun b hb m hm => (branchesClean_spec _ bs hk h1 b hb m hm).2.1)
      have hj := countP_branch_nodes_zero isJoinNode bs
        (fun b hb m hm => (branchesClean_spec _ bs hk h1 b hb m hm).2.2)
      refine ⟨?_, ?_, ?_⟩ <;>
        simp [expandOneNodes, Node.kind, List.countP_append, hp, hf, hj,
          List.countP_cons, isParallelNode, isForkNode, isJoinNode]
  | fork ids jid =>
      simp [topClean, isParallelNode, isForkNode, isJoinNode, Node.kind] at h2
  | join c =>
      simp [topClean, isParallelNode, isForkNode, isJoinNode, Node.kind] at h2
  | start =>
      refine ⟨?_, ?_, ?_⟩ <;>
        simp [expandOneNodes, Node.kind, List.countP_cons,
          isParallelNode, isForkNode, isJoinNode]
  | endNode o =>
      refine ⟨?_, ?_, ?_⟩ <;>
        simp [expandOneNodes, Node.kind, List.countP_cons,
          isParallelNode, isForkNode, isJoinNode]
  | function nm ps o =>
      refine ⟨?_, ?_, ?_⟩ <;>
        simp [expandOneNodes, Node.kind, List.countP_cons,
          isParallelNode, isForkNode, isJoinNode]
  | assign a e =>
      refine ⟨?_, ?_, ?_⟩ <;>
        simp [expandOneNodes, Node.kind, List.countP_cons,
          isParallelNode, isForkNode, isJoinNode]
  | ifNode bs =>
      refine ⟨?_, ?_, ?_⟩ <;>
        simp [expandOneNodes, Node.kind, List.countP_cons,
          isParallelNode, isForkNode, isJoinNode]
  | iteration c v =>
      refine ⟨?_, ?_, ?_⟩ <;>
        simp [expandOneNodes, Node.kind, List.countP_cons,
          isParallelNode, isForkNode, isJoinNode]
  | loopNode c =>
      refine ⟨?_, ?_, ?_⟩ <;>
        simp [expandOneNodes, Node.kind, List.countP_cons,
          isParallelNode, isForkNode, isJoinNode]

theorem expand_counts (ns : List Node)
    (h1 : ns.all branchesClean = true) (h2 : ns.all topClean = true) :
    (ns.flatMap expandOneNodes).countP isParallelNode = 0 ∧
    (ns.flatMap expandOneNodes).countP isForkNode = ns.countP isParallelNode ∧
    (ns.flatMap expandOneNodes).countP isJoinNode = ns.countP isParallelNode := by
  induction ns with
  | nil => simp
  | cons n rest ih =>
      simp only [List.all_cons, Bool.and_eq_true] at h1 h2
      obtain ⟨ihp, ihf, ihj⟩ := ih h1.2 h2.2
      obtain ⟨cp, cf, cj⟩ := expandOne_counts n h1.1 h2.1
      cases hpn : isParallelNode n <;>
        simp only [hpn] at cf cj <;>
        refine ⟨?_, ?_, ?_⟩ <;>
        simp [List.flatMap_cons, List.countP_append, List.countP_cons, hpn,
          cp, cf, cj, ihp, ihf, ihj, Nat.add_comm]


theorem branchHeads_length (bs : List Branch) :
    (branchHeads bs).length = (bs.filter (fun b => !b.nodes.isEmpty)).length := by
  simp [branchHeads]

/-- A workflow whose single top-level parallel node has one branch whose
only node is itself a parallel node. -/
def c1NestedWf : Workflow :=
  { id := "w", name := "w", vars := [],
    nodes := [Node.mk "p" (.parallel [Branch.mk
      [Node.mk "q" (.parallel [Branch.mk [Node.mk "r" (.assign [] none)]])]])],
    edges := [] }

/-- Claim C1, counterexample: expanding a workflow whose parallel node
contains a nested parallel node in a branch leaves one `Parallel` node in
the output, contradicting the claim that expansion removes every
`Parallel` node including ones nested inside branches. -/
theorem c1_counterexample :
    ((expand c1NestedWf).nodes.countP isParallelNode = 1) ∧
    ¬ ((expand c1NestedWf).nodes.countP isParallelNode = 0) := by
  constructor
  · rfl
  · decide

/-- Claim C1 (amended): `Expander::expand` removes every top-level
`Parallel` node — a `Parallel` nested inside a branch of another
`Parallel` is emitted unchanged, so freedom from `Parallel` nodes holds
only when no branch node is itself a `Parallel`. Under that condition
(and when the input does not already use the internal `Fork`/`Join`
variants) the output contains no `Parallel` node, exactly one synthetic
`Fork` and one synthetic `Join` per original `Parallel`, each node
contributes per `expandOneNodes` (a parallel contributes its non-empty
branches' nodes, dropping empty branches, then its fork and join), and
every synthesized join's `expect_count` — the length of `branchHeads` —
equals the number of non-empty branches. -/
theorem c1_expand_amended (wf : Workflow)
    (h1 : wf.nodes.all branchesClean = true)
    (h2 : wf.nodes.all topClean = true) :
    (expand wf).nodes = wf.nodes.flatMap expandOneNodes ∧
    (expand wf).nodes.countP isParallelNode = 0 ∧
    (expand wf).nodes.countP isForkNode = wf.nodes.countP isParallelNode ∧
    (expand wf).nodes.countP isJoinNode = wf.nodes.countP isParallelNode ∧
    (∀ bs : List Branch, (branchHeads bs).length =
      (bs.filter (fun b => !b.nodes.isEmpty)).length) := by
  have hnodes := expand_nodes_eq wf
  obtain ⟨hp, hf, hj⟩ := expand_counts wf.nodes h1 h2
  rw [hnodes]
  exact ⟨rfl, hp, hf, hj, branchHeads_length⟩

/-- A workflow with one parallel node with a two-node branch, a one-node
branch and an empty branch, used to instantiate `c1_expand_amended`. -/
def c1PlainWf : Workflow :=
  { id := "w2", name := "w2", vars := [],
    nodes := [Node.mk "s" .start,
      Node.mk "p" (.parallel
        [Branch.mk [Node.mk "a" (.assign [] none), Node.mk "b" (.assign [] none)],
         Branch.mk [Node.mk "c" (.assign [] none)],
         Branch.mk []]),
      Node.mk "e" (.endNode "")],
    edges := [{ source := "s", target := "p", condition := none,
                branch_type := none, branch_index := none },
              { source := "p", target := "e", condition := none,
                branch_type := none, branch_index := none }] }

/-- Claim C1, witness: the amended theorem applied to `c1PlainWf`; the
synthesized join's expect count is 2 because the empty branch is
dropped. -/
theorem c1_expand_amended_witness :
    (expand c1PlainWf).nodes.countP isParallelNode = 0 ∧
    (expand c1PlainWf).nodes.countP isForkNode = 1 ∧
    (expand c1PlainWf).nodes.countP isJoinNode = 1 :=
  ⟨(c1_expand_amended c1PlainWf (by decide) (by decide)).2.1,
   (c1_expand_amended c1PlainWf (by decide) (by decide)).2.2.1,
   (c1_expand_amended c1PlainWf (by decide) (by decide)).2.2.2.1⟩

/-! Compiler lowering pass (`compiler/core.rs`). -/

/-- Association-list lookup (first match), modelling map lookup. -/
def lookupA {κ α : Type} [BEq κ] (m : List (κ × α)) (k : κ) : Option α :=
  (m.find? (fun kv => kv.1 == k)).map (·.2)

/-- Json number from a `usize`. -/
def Json.ofNat (n : Nat) : Json := .num (Int.ofNat n)

/-- Json encoding of an `Option<usize>` (serde: `None` becomes null). -/
def optNum : Option Nat → Json
  | some n => Json.ofNat n
  | none => .null

/-- Json encoding of an `Option<String>`. -/
def optStrJson : Option String → Json
  | some s => .str s
  | none => .null

/-- `Compiler::resolve_target`: look a node id up in the id map, erroring
on undefined ids. -/
def resolve_target (m : List (String × Nat)) (target_id : String) : Except String Nat :=
  match lookupA m target_id with
  | some i => .ok i
  | none => .error ("Target node not found: " ++ target_id)

/-- Pass 1 of `Compiler::compile`: assign each node its position and
error on duplicate ids. -/
def mkIdMapGo : List Node → Nat → List (String × Nat) → Except String (List (String × Nat))
  | [], _, acc => .ok acc
  | n :: rest, idx, acc =>
      if (lookupA acc n.id).isSome then
        .error ("Duplicate node ID: " ++ n.id)
      else
        mkIdMapGo rest (idx + 1) (acc ++ [(n.id, idx)])

/-- The id-to-index map of a node list. -/
def mkIdMap (ns : List Node) : Except String (List (String × Nat)) :=
  mkIdMapGo ns 0 []

/-- The outgoing edges of a source id, in edge order (the adjacency map
of `Compiler::compile`). -/
def outEdges (edges : List Edge) (src : String) : List Edge :=
  edges.filter (fun e => e.source == src)

/-- Resolution of the first outgoing edge's target, when present
(the `edges.first().map(resolve).transpose()` pattern). -/
def firstEdgeTarget (m : List (String × Nat)) (edges : List Edge) :
    Except String (Option Nat) :=
  match edges.head? with
  | none => .ok none
  | some e => (resolve_target m e.target).map some

/-- Whether an edge is tagged as a body edge (`branch_type == "body"`). -/
def bodyP (e : Edge) : Bool :=
  e.branch_type == some "body"

/-- Edge classification of the `Iteration` arm: `branch_type == "body"`
edges set `body`, all others set `next`; a second edge of either class is
an error. -/
def iterClassify (m : List (String × Nat)) (nid : String) :
    List Edge → Option Nat → Option Nat → Except String (Option Nat × Option Nat)
  | [], next, body => .ok (next, body)
  | e :: rest, next, body =>
      match resolve_target m e.target with
      | .error msg => .error msg
      | .ok t =>
          if bodyP e then
            match body with
            | some _ => .error ("Multiple body branches for iteration node " ++ nid)
            | none => iterClassify m nid rest next (some t)
          else
            match next with
            | some _ => .error ("Multiple next branches for iteration node " ++ nid)
            | none => iterClassify m nid rest (some t) body

/-- Edge classification of the `Loop` arm: same body/next split as
`Iteration` but with no duplicate checks — a later edge of the same class
overwrites the earlier one. -/
def loopClassify (m : List (String × Nat)) :
    List Edge → Option Nat → Option Nat → Except String (Option Nat × Option Nat)
  | [], next, body => .ok (next, body)
  | e :: rest, next, body =>
      match resolve_target m e.target with
      | .error msg => .error msg
      | .ok t =>
          if bodyP e then
            loopClassify m rest next (some t)
          else
            loopClassify m rest (some t) body

/-- Edge classification of the `If` arm: edges with a condition become
conditioned branches; edges with a `branch_index` take the condition of
the referenced defined branch; otherwise the edge becomes the (unique)
else branch. -/
def ifClassify (m : List (String × Nat)) (defined : List (List (String × String)))
    (nid : String) :
    List Edge → List Json → Option Nat → Except String (List Json × Option Nat)
  | [], acc, els => .ok (acc, els)
  | e :: rest, acc, els =>
      match resolve_target m e.target with
      | .error msg => .error msg
      | .ok t =>
      match e.condition with
      | some c =>
          ifClassify m defined nid rest
            (acc ++ [.obj [("condition", .str c), ("target", Json.ofNat t)]]) els
      | none =>
          match e.branch_index with
          | some idx =>
              match defined.get? idx with
              | some br =>
                  match lookupA br "condition" with
                  | some c =>
                      ifClassify m defined nid rest
                        (acc ++ [.obj [("condition", .str c), ("target", Json.ofNat t)]]) els
                  | none =>
                      .error ("Branch " ++ toString idx ++ " for node " ++ nid ++
                        " has no condition")
              | none =>
                  .error ("Branch index " ++ toString idx ++ " out of bounds for node " ++ nid)
          | none =>
              if e.branch_type == some "else" then
                match els with
                | some _ => .error ("Multiple else branches found for node " ++ nid)
                | none => ifClassify m defined nid rest acc (some t)
              else
                match els with
                | some _ => .error ("Multiple else/default branches found for node " ++ nid)
                | none => ifClassify m defined nid rest acc (some t)

/-- Monadic map over `Except`, short-circuiting at the first error (the
`?`-propagating loops of the Rust compiler). -/
def mapME {a b : Type} (f : a → Except String b) : List a → Except String (List b)
  | [] => .ok []
  | x :: xs =>
      match f x with
      | .error msg => .error msg
      | .ok y =>
          match mapME f xs with
          | .error msg => .error msg
          | .ok ys => .ok (y :: ys)

/-- `Compiler::transform_node`: lower one authored node to a blueprint
node, given the id map and the node's outgoing edges. -/
def transform_node (m : List (String × Nat)) (node : Node) (edges : List Edge) :
    Except String BlueprintNode :=
  match node.kind with
  | .start =>
      match firstEdgeTarget m edges with
      | .error msg => .error msg
      | .ok next => .ok ⟨"start", .obj [("next", optNum next)]⟩
  | .endNode output =>
      .ok ⟨"end", .obj [("output", .str output)]⟩
  | .function name params output =>
      match firstEdgeTarget m edges with
      | .error msg => .error msg
      | .ok next =>
          let base := Json.obj params
          let withNext :=
            match next with
            | some n => base.insertKey "next" (Json.ofNat n)
            | none => base
          let full :=
            match output with
            | some o => withNext.insertKey "output" (.str o)
            | none => withNext
          .ok ⟨name, full⟩
  | .assign assignments expression =>
      match firstEdgeTarget m edges with
      | .error msg => .error msg
      | .ok next =>
          let base := Json.obj
            [("assignments", .arr (assignments.map (fun a => Json.obj a))),
             ("expression", optStrJson expression)]
          let full :=
            match next with
            | some n => base.insertKey "next" (Json.ofNat n)
            | none => base
          .ok ⟨"assign", full⟩
  | .iteration collection item_var =>
      match iterClassify m node.id edges none none with
      | .error msg => .error msg
      | .ok (next, body) =>
          .ok ⟨"iteration", .obj
            [("collection", .str collection), ("item_var", .str item_var),
             ("next", optNum next), ("body", optNum body)]⟩
  | .loopNode condition =>
      match loopClassify m edges none none with
      | .error msg => .error msg
      | .ok (next, body) =>
          .ok ⟨"loop", .obj
            [("condition", .str condition), ("body", optNum body), ("next", optNum next)]⟩
  | .ifNode defined_branches =>
      match ifClassify m defined_branches node.id edges [] none with
      | .error msg => .error msg
      | .ok (branches, else_next) =>
          .ok ⟨"if", .obj [("branches", .arr branches), ("else_next", optNum else_next)]⟩
  | .parallel _ =>
      .error ("Parallel node " ++ node.id ++ " should have been expanded")
  | .fork branch_start_ids join_id =>
      match mapME (resolve_target m) branch_start_ids with
      | .error msg => .error msg
      | .ok targets =>
          match resolve_target m join_id with
          | .error msg => .error msg
          | .ok join_target =>
              .ok ⟨"fork", .obj
                [("targets", .arr (targets.map Json.ofNat)),
                 ("join_target", Json.ofNat join_target)]⟩
  | .join expect_count =>
      match firstEdgeTarget m edges with
      | .error msg => .error msg
      | .ok next =>
          .ok ⟨"join", .obj
            [("next", optNum next), ("expect_count", Json.ofNat expect_count)]⟩

/-- Whether an authored node is the `Start` node. -/
def isStartNode (n : Node) : Bool :=
  match n.kind with
  | .start => true
  | _ => false

/-- `Compiler::compile`: expand, index, transform every node, and locate
the start node. -/
def compile (raw : Workflow) : Except String Blueprint :=
  match mkIdMap (expand raw).nodes with
  | .error msg => .error msg
  | .ok m =>
      match mapME (fun n => transform_node m n (outEdges (expand raw).edges n.id))
          (expand raw).nodes with
      | .error msg => .error msg
      | .ok bnodes =>
          match (expand raw).nodes.find? isStartNode with
          | none => .error "Start node not found"
          | some sn =>
              match lookupA m sn.id with
              | some i => .ok ⟨(expand raw).id, (expand raw).name, bnodes, i⟩
              | none => .error "start node id missing from id map"

/-! Optimizer (`compiler/optimizer.rs`). -/

/-- Execution mode of a registered operation (`actions::ExecutionMode`). -/
inductive ExecutionMode where
  | sync : ExecutionMode
  | async : ExecutionMode
deriving DecidableEq, BEq

/-- Fallback blueprint node used for out-of-range list indexing. -/
def defaultBN : BlueprintNode := ⟨"", .null⟩

/-- `optimizer::is_sync`: the kind is registered as `Sync`. -/
def is_sync (lookup : String → Option ExecutionMode) (node : BlueprintNode) : Bool :=
  lookup node.kind == some .sync

/-- Values at a key of the parameter object viewed as a `u64`, as a list. -/
def keyU64 (node : BlueprintNode) (k : String) : List Nat :=
  match (node.params.getKey k).bind Json.asU64 with
  | some n => [n]
  | none => []

/-- `optimizer::extract_targets`: all outgoing node indices read from the
parameter object — `next`, `targets`, `join_target`, `branches[*].target`,
`else_next` and `body`. -/
def extract_targets (node : BlueprintNode) : List Nat :=
  keyU64 node "next" ++
  (match (node.params.getKey "targets").bind Json.asArr with
   | some ts => ts.filterMap Json.asU64
   | none => []) ++
  keyU64 node "join_target" ++
  (match (node.params.getKey "branches").bind Json.asArr with
   | some bs => bs.filterMap (fun b => (b.getKey "target").bind Json.asU64)
   | none => []) ++
  keyU64 node "else_next" ++
  keyU64 node "body"

/-- The adjacency list of node `i` (targets filtered to valid indices,
as in `Optimizer::optimize` step 1). -/
def adjOf (nodes : List BlueprintNode) (i : Nat) : List Nat :=
  match nodes.get? i with
  | some nd => (extract_targets nd).filter (fun v => decide (v < nodes.length))
  | none => []

/-- The in-degree of node `v` (with multiplicity, as in
`Optimizer::optimize` step 1). -/
def degOf (nodes : List BlueprintNode) (v : Nat) : Nat :=
  ((List.range nodes.length).map (fun u => (adjOf nodes u).count v)).sum

/-- The chain-extension loop of `Optimizer::optimize` step 2, with fuel
modelling the unbounded Rust `loop`: starting from `curr`, keep appending
the unique successor while it has in-degree one, is sync, and is not
`curr` itself. Returns the chain and the updated merged set, or `none`
when the fuel runs out (the Rust loop would still be running). -/
def chainExt (nodes : List BlueprintNode) (lookup : String → Option ExecutionMode) :
    Nat → Nat → List Nat → List Nat → Option (List Nat × List Nat)
  | 0, _, _, _ => none
  | fuel + 1, curr, chain, merged =>
      match adjOf nodes curr with
      | [next] =>
          if next = curr then some (chain, merged)
          else if degOf nodes next = 1 ∧
              is_sync lookup (nodes.getD next defaultBN) = true then
            chainExt nodes lookup fuel next (chain ++ [next]) (next :: merged)
          else some (chain, merged)
      | _ => some (chain, merged)

/-- The linear scan of `Optimizer::optimize` step 2 over all node
indices, accumulating chains (of length greater than one) and the merged
set. -/
def scanChainsGo (nodes : List BlueprintNode) (lookup : String → Option ExecutionMode)
    (fuel : Nat) :
    List Nat → List (Nat × List Nat) → List Nat →
      Option (List (Nat × List Nat) × List Nat)
  | [], chains, merged => some (chains, merged)
  | i :: rest, chains, merged =>
      if merged.contains i then
        scanChainsGo nodes lookup fuel rest chains merged
      else if is_sync lookup (nodes.getD i defaultBN) then
        match chainExt nodes lookup fuel i [i] merged with
        | none => none
        | some (chain, merged2) =>
            let chains2 := if chain.length > 1 then chains ++ [(i, chain)] else chains
            scanChainsGo nodes lookup fuel rest chains2 merged2
      else
        scanChainsGo nodes lookup fuel rest chains merged

/-- All fusion chains and merged nodes of a blueprint node list. -/
def scanChains (nodes : List BlueprintNode) (lookup : String → Option ExecutionMode)
    (fuel : Nat) : Option (List (Nat × List Nat) × List Nat) :=
  scanChainsGo nodes lookup fuel (List.range nodes.length) [] []

/-- The `fused` node built from a chain (step 3 of `Optimizer::optimize`):
`ops` holds each member's kind/params record and `next` is copied from
the tail's `next` parameter. -/
def mkFusedNode (nodes : List BlueprintNode) (i : Nat) (chain : List Nat) : BlueprintNode :=
  ⟨"fused", .obj
    [("ops", .arr (chain.map (fun idx =>
        Json.obj [("kind", .str (nodes.getD idx defaultBN).kind),
                  ("params", (nodes.getD idx defaultBN).params)]))),
     ("next", ((nodes.getD (chain.getLastD i) defaultBN).params.getKey "next").getD .null)]⟩

/-- Step 3 of `Optimizer::optimize`: build the new node list — skipping
merged nodes, replacing chain heads by their fused node, copying other
nodes — together with the old-index to new-index map. -/
def buildNewGo (nodes : List BlueprintNode) (chains : List (Nat × List Nat))
    (merged : List Nat) :
    List Nat → List BlueprintNode → List (Nat × Nat) →
      List BlueprintNode × List (Nat × Nat)
  | [], acc, map => (acc, map)
  | i :: rest, acc, map =>
      if merged.contains i then
        buildNewGo nodes chains merged rest acc map
      else
        match lookupA chains i with
        | some chain =>
            buildNewGo nodes chains merged rest (acc ++ [mkFusedNode nodes i chain])
              (map ++ [(i, acc.length)])
        | none =>
            buildNewGo nodes chains merged rest (acc ++ [nodes.getD i defaultBN])
              (map ++ [(i, acc.length)])

/-- The value remapper of `remap_node_targets`: a `u64` index present in
the old-to-new map is replaced; anything else is left unchanged. -/
def remap_val (map : List (Nat × Nat)) (v : Json) : Json :=
  match v.asU64 with
  | some idx =>
      match lookupA map idx with
      | some newIdx => Json.ofNat newIdx
      | none => v
  | none => v

/-- Remapping of a `targets`-style array value: each `u64` element goes
through the map. -/
def remapArr (map : List (Nat × Nat)) (v : Json) : Json :=
  match v with
  | .arr xs => .arr (xs.map (remap_val map))
  | _ => v

/-- Remapping of a `branches`-style array value: each record's `target`
goes through the map. -/
def remapBranches (map : List (Nat × Nat)) (v : Json) : Json :=
  match v with
  | .arr bs => .arr (bs.map (fun b => b.modifyKey "target" (remap_val map)))
  | _ => v

/-- `optimizer::remap_node_targets`: remap the six control-flow fields of
a node's parameter object through the old-to-new index map. -/
def remap_node_targets (map : List (Nat × Nat)) (node : BlueprintNode) : BlueprintNode :=
  ⟨node.kind,
    (((((node.params.modifyKey "next" (remap_val map)).modifyKey "targets"
        (remapArr map)).modifyKey "join_target" (remap_val map)).modifyKey "branches"
        (remapBranches map)).modifyKey "else_next" (remap_val map)).modifyKey "body"
        (remap_val map)⟩

/-- `Optimizer::optimize`: identify chains, build the fused node list,
remap all stored indices and the start index. `none` models the Rust
chain-extension loop failing to terminate within the given fuel. -/
def optimize (lookup : String → Option ExecutionMode) (fuel : Nat)
    (bp : Blueprint) : Option Blueprint :=
  match scanChains bp.nodes lookup fuel with
  | none => none
  | some (chains, merged) =>
      let built := buildNewGo bp.nodes chains merged (List.range bp.nodes.length) [] []
      let remapped := built.1.map (remap_node_targets built.2)
      let newStart := (lookupA built.2 bp.start_index).getD bp.start_index
      some ⟨bp.id, bp.name, remapped, newStart⟩

/-- Whether all control-flow targets of a blueprint node are valid
indices for a node vector of the given length. -/
def validNode (len : Nat) (n : BlueprintNode) : Bool :=
  (extract_targets n).all (fun t => decide (t < len))

/-- The blueprint target invariant: every control-flow target of every
node, and the start index, are valid positions in the node vector. -/
def validB (bp : Blueprint) : Bool :=
  bp.nodes.all (validNode bp.nodes.length) && decide (bp.start_index < bp.nodes.length)

/-- Whether an `Except` computation succeeded. -/
def isOkE {ε α : Type} : Except ε α → Bool
  | .ok _ => true
  | .error _ => false

/-- Whether `compile` accepts a workflow. -/
def compileOk (wf : Workflow) : Bool :=
  isOkE (compile wf)

/-- Whether the blueprint produced by `compile` satisfies the target
invariant (vacuously true when compilation fails). -/
def compiledValid (wf : Workflow) : Bool :=
  match compile wf with
  | .ok bp => validB bp
  | .error _ => true

/-- Whether the optimized blueprint of a compiled workflow satisfies the
target invariant (vacuously true when compilation or the fueled
optimizer does not produce a blueprint). -/
def optValid (wf : Workflow) (lookup : String → Option ExecutionMode) (fuel : Nat) : Bool :=
  match compile wf with
  | .ok bp =>
      match optimize lookup fuel bp with
      | some bp2 => validB bp2
      | none => true
  | .error _ => true

/-- A plain edge between two ids. -/
def plainEdge (s t : String) : Edge :=
  { source := s, target := t, condition := none, branch_type := none, branch_index := none }

/-- An edge tagged with a branch type. -/
def typedEdge (s t bt : String) : Edge :=
  { source := s, target := t, condition := none, branch_type := some bt, branch_index := none }

/-- A workflow whose `Function` node carries a user parameter named
`next` holding the out-of-range index 999. -/
def c5wfA : Workflow :=
  { id := "w5a", name := "", vars := [],
    nodes := [Node.mk "s" .start,
      Node.mk "f" (.function "log" [("next", Json.ofNat 999)] none)],
    edges := [plainEdge "s" "f"] }

/-- A workflow whose start node is the target of a sync node; under a
mode lookup that also classifies `start` as sync, the optimizer merges
the start node into a chain and leaves `start_index` dangling. -/
def c5wfB : Workflow :=
  { id := "w5b", name := "", vars := [],
    nodes := [Node.mk "a" (.assign [] none), Node.mk "s" .start],
    edges := [plainEdge "a" "s"] }

/-- A mode lookup classifying both `assign` and `start` as sync. -/
def c5lookup : String → Option ExecutionMode :=
  fun k => if k = "assign" || k = "start" then some .sync else none

/-- Claim C5, counterexample: (a) `compile` accepts `c5wfA`, whose
`Function` node's user parameter `next: 999` survives into the blueprint
unchecked, so the compiled blueprint violates the target invariant;
(b) `compile` accepts `c5wfB` producing a valid blueprint, but
`Optimizer::optimize` (with a lookup classifying the start node's kind
as sync) merges the start node into a chain and emits a blueprint whose
`start_index` is out of range. -/
theorem c5_counterexample :
    (compileOk c5wfA = true ∧ compiledValid c5wfA = false) ∧
    (compileOk c5wfB = true ∧ compiledValid c5wfB = true ∧
      optValid c5wfB c5lookup 10 = false) := by
  exact ⟨⟨rfl, rfl⟩, ⟨rfl, rfl, rfl⟩⟩

/-- A workflow whose `Loop` node has two `body` edges. -/
def c6wfA : Workflow :=
  { id := "w6a", name := "", vars := [],
    nodes := [Node.mk "s" .start, Node.mk "l" (.loopNode "x < 3"),
      Node.mk "a" (.assign [] none), Node.mk "b" (.assign [] none)],
    edges := [plainEdge "s" "l", typedEdge "l" "a" "body", typedEdge "l" "b" "body"] }

/-- A workflow whose `Loop` node has two exit edges. -/
def c6wfB : Workflow :=
  { id := "w6b", name := "", vars := [],
    nodes := [Node.mk "s" .start, Node.mk "l" (.loopNode "x < 3"),
      Node.mk "a" (.assign [] none), Node.mk "b" (.assign [] none)],
    edges := [plainEdge "s" "l", plainEdge "l" "a", plainEdge "l" "b"] }

/-- The same graph as `c6wfA` with an `Iteration` node instead of the
`Loop` node. -/
def c6wfIter : Workflow :=
  { id := "w6i", name := "", vars := [],
    nodes := [Node.mk "s" .start, Node.mk "l" (.iteration "xs" "x"),
      Node.mk "a" (.assign [] none), Node.mk "b" (.assign [] none)],
    edges := [plainEdge "s" "l", typedEdge "l" "a" "body", typedEdge "l" "b" "body"] }

/-- Claim C6, counterexample: `compile` accepts a workflow whose `Loop`
node has two body edges and one whose `Loop` node has two exit edges (the
later edge silently wins), while the identical graph with an `Iteration`
node is rejected — so Loop duplicate edges are not errors as claimed. -/
theorem c6_counterexample :
    compileOk c6wfA = true ∧ compileOk c6wfB = true ∧
    compileOk c6wfIter = false := by
  exact ⟨rfl, rfl, rfl⟩

/-- A workflow with an outgoing edge of its `End` node pointing at an
undeclared id. -/
def c7wf : Workflow :=
  { id := "w7", name := "", vars := [],
    nodes := [Node.mk "s" .start, Node.mk "e" (.endNode "")],
    edges := [plainEdge "s" "e", plainEdge "e" "ghost"] }

/-- Claim C7, counterexample: an edge whose source is an `End` node and
whose target id is undeclared does not make `compile` fail — the `End`
arm ignores its outgoing edges entirely. -/
theorem c7_counterexample : compileOk c7wf = true := by
  exact rfl

/-! Claim C10: divergence of the optimizer's chain-extension loop. -/

/-- Two sync nodes whose `next` fields point at each other, each with
in-degree one. -/
def c10nodes : List BlueprintNode :=
  [⟨"s1", .obj [("next", Json.ofNat 1)]⟩, ⟨"s1", .obj [("next", Json.ofNat 0)]⟩]

/-- The two-node-cycle blueprint of `c10nodes`. -/
def c10bp : Blueprint := ⟨"c10", "", c10nodes, 0⟩

/-- A mode lookup classifying the `s1` kind as sync. -/
def c10lookup : String → Option ExecutionMode :=
  fun k => if k = "s1" then some .sync else none

theorem c10_cycle (fuel : Nat) : ∀ chain merged : List Nat,
    chainExt c10nodes c10lookup fuel 0 chain merged = none ∧
    chainExt c10nodes c10lookup fuel 1 chain merged = none := by
  induction fuel with
  | zero => exact fun chain merged => ⟨rfl, rfl⟩
  | succ f ih =>
      intro chain merged
      constructor
      · show chainExt c10nodes c10lookup (f + 1) 0 chain merged = none
        rw [chainExt]
        rw [show adjOf c10nodes 0 = [1] from rfl]
        show (if (1 : Nat) = 0 then some (chain, merged)
          else if degOf c10nodes 1 = 1 ∧
              is_sync c10lookup (c10nodes.getD 1 defaultBN) = true then
            chainExt c10nodes c10lookup f 1 (chain ++ [1]) (1 :: merged)
          else some (chain, merged)) = none
        rw [if_neg (by decide), if_pos (by decide)]
        exact (ih _ _).2
      · show chainExt c10nodes c10lookup (f + 1) 1 chain merged = none
        rw [chainExt]
        rw [show adjOf c10nodes 1 = [0] from rfl]
        show (if (0 : Nat) = 1 then some (chain, merged)
          else if degOf c10nodes 0 = 1 ∧
              is_sync c10lookup (c10nodes.getD 0 defaultBN) = true then
            chainExt c10nodes c10lookup f 0 (chain ++ [0]) (0 :: merged)
          else some (chain, merged)) = none
        rw [if_neg (by decide), if_pos (by decide)]
        exact (ih _ _).1

/-- Claim C10: for the two-node sync cycle, the chain-extension loop of
`Optimizer::optimize` never stops: whatever fuel is provided, the fueled
model exhausts it, so the Rust loop runs forever and `optimize` produces
no result. -/
theorem c10_optimize_diverges (fuel : Nat) :
    optimize c10lookup fuel c10bp = none := by
  have hs : scanChains c10bp.nodes c10lookup fuel = none := by
    unfold scanChains
    rw [show c10bp.nodes = c10nodes from rfl]
    rw [show List.range c10nodes.length = [0, 1] from rfl]
    rw [scanChainsGo]
    rw [if_neg (by decide), if_pos (by decide)]
    rw [(c10_cycle fuel [0] []).1]
  unfold optimize
  rw [hs]

/-- The resolved target of the last edge of a list, or a default. -/
def lastOr (f : Edge → Nat) (es : List Edge) (d : Option Nat) : Option Nat :=
  match es.getLast? with
  | some e => some (f e)
  | none => d

theorem lastOr_cons (f : Edge → Nat) (e : Edge) (l : List Edge) (d : Option Nat) :
    lastOr f (e :: l) d = lastOr f l (some (f e)) := by
  cases l with
  | nil => simp [lastOr]
  | cons x xs =>
      have h : (x :: xs).getLast? = some (xs.getLast?.getD x) := List.getLast?_cons
      simp [lastOr, List.getLast?_cons_cons, h]

theorem loopClassify_spec (m : List (String × Nat)) (f : Edge → Nat) :
    ∀ (es : List Edge) (next0 body0 : Option Nat),
      (∀ e ∈ es, resolve_target m e.target = .ok (f e)) →
      loopClassify m es next0 body0 =
        .ok (lastOr f (es.filter (fun e => !bodyP e)) next0,
             lastOr f (es.filter bodyP) body0) := by
  intro es
  induction es with
  | nil => intro next0 body0 _; simp [loopClassify, lastOr]
  | cons e rest ih =>
      intro next0 body0 hres
      have he := hres e (List.mem_cons_self e rest)
      have hrest : ∀ x ∈ rest, resolve_target m x.target = .ok (f x) :=
        fun x hx => hres x (List.mem_cons_of_mem e hx)
      rw [loopClassify, he]
      cases hb : bodyP e with
      | true =>
          show loopClassify m rest next0 (some (f e)) = _
          rw [ih _ _ hrest]
          simp [List.filter_cons, hb, lastOr_cons]
      | false =>
          show loopClassify m rest (some (f e)) body0 = _
          rw [ih _ _ hrest]
          simp [List.filter_cons, hb, lastOr_cons]

theorem iterClassify_spec (m : List (String × Nat)) (f : Edge → Nat) (nid : String) :
    ∀ (es : List Edge) (next0 body0 : Option Nat),
      (∀ e ∈ es, resolve_target m e.target = .ok (f e)) →
      (es.filter bodyP).length + (if body0.isSome then 1 else 0) ≤ 1 →
      (es.filter (fun e => !bodyP e)).length + (if next0.isSome then 1 else 0) ≤ 1 →
      iterClassify m nid es next0 body0 =
        .ok (lastOr f (es.filter (fun e => !bodyP e)) next0,
             lastOr f (es.filter bodyP) body0) := by
  intro es
  induction es with
  | nil => intro next0 body0 _ _ _; simp [iterClassify, lastOr]
  | cons e rest ih =>
      intro next0 body0 hres hb hn
      have he := hres e (List.mem_cons_self e rest)
      have hrest : ∀ x ∈ rest, resolve_target m x.target = .ok (f x) :=
        fun x hx => hres x (List.mem_cons_of_mem e hx)
      rw [iterClassify, he]
      cases hbe : bodyP e with
      | true =>
          simp only [List.filter_cons, hbe, if_true] at hb
          cases body0 with
          | some v => simp at hb
          | none =>
              have hz : (rest.filter bodyP).length = 0 := by
                simp only [List.length_cons] at hb
                omega
              have hn2 : (rest.filter (fun x => !bodyP x)).length +
                  (if next0.isSome then 1 else 0) ≤ 1 := by
                simpa [List.filter_cons, hbe] using hn
              show iterClassify m nid rest next0 (some (f e)) = _
              rw [ih _ _ hrest (by simp [hz]) hn2]
              simp [List.filter_cons, hbe, lastOr_cons]
      | false =>
          simp only [List.filter_cons, hbe] at hn
          cases next0 with
          | some v => simp at hn
          | none =>
              have hz : (rest.filter (fun x => !bodyP x)).length = 0 := by
                simp only [Bool.not_false, if_true, List.length_cons] at hn
                omega
              have hb2 : (rest.filter bodyP).length +
                  (if body0.isSome then 1 else 0) ≤ 1 := by
                simpa [List.filter_cons, hbe] using hb
              show iterClassify m nid rest (some (f e)) body0 = _
              rw [ih _ _ hrest hb2 (by simp [hz])]
              simp [List.filter_cons, hbe, lastOr_cons]

/-- Claim C6 (amended): compiling a `Loop` node classifies its outgoing
edges with the same body/exit split as an `Iteration` node — edges with
`branch_type == "body"` set `body`, all others set `next` — but unlike
`Iteration`, multiple body or multiple exit edges are NOT compile errors
for `Loop`: the last edge of each class silently wins. When the node has
at most one body edge and at most one exit edge, the Loop and Iteration
classifications yield the same `body` and `next` targets. -/
theorem c6_loop_amended (m : List (String × Nat)) (f : Edge → Nat) (es : List Edge)
    (nid cond coll iv : String)
    (hres : ∀ e ∈ es, resolve_target m e.target = .ok (f e)) :
    (transform_node m (Node.mk nid (.loopNode cond)) es = .ok
      ⟨"loop", .obj [("condition", .str cond),
        ("body", optNum (lastOr f (es.filter bodyP) none)),
        ("next", optNum (lastOr f (es.filter (fun e => !bodyP e)) none))]⟩) ∧
    ((es.filter bodyP).length ≤ 1 →
     (es.filter (fun e => !bodyP e)).length ≤ 1 →
     transform_node m (Node.mk nid (.iteration coll iv)) es = .ok
       ⟨"iteration", .obj [("collection", .str coll), ("item_var", .str iv),
         ("next", optNum (lastOr f (es.filter (fun e => !bodyP e)) none)),
         ("body", optNum (lastOr f (es.filter bodyP) none))]⟩) := by
  constructor
  · show (match loopClassify m es none none with
      | Except.error msg => (Except.error msg : Except String BlueprintNode)
      | Except.ok (next, body) =>
          Except.ok ⟨"loop", .obj
            [("condition", .str cond), ("body", optNum body), ("next", optNum next)]⟩) = _
    rw [loopClassify_spec m f es none none hres]
  · intro hb hn
    show (match iterClassify m nid es none none with
      | Except.error msg => (Except.error msg : Except String BlueprintNode)
      | Except.ok (next, body) =>
          Except.ok ⟨"iteration", .obj
            [("collection", .str coll), ("item_var", .str iv),
             ("next", optNum next), ("body", optNum body)]⟩) = _
    rw [iterClassify_spec m f nid es none none hres (by simpa using hb)
      (by simpa using hn)]

/-- Claim C6, witness: instantiation of the amended theorem at a concrete
id map and edge pair (one body edge, one exit edge), where Loop and
Iteration agree on body and next. -/
theorem c6_loop_amended_witness :
    transform_node [("a", 0), ("b", 1)] (Node.mk "l" (.loopNode "x < 3"))
      [typedEdge "l" "a" "body", plainEdge "l" "b"] = .ok
      ⟨"loop", .obj [("condition", .str "x < 3"),
        ("body", optNum (some 0)), ("next", optNum (some 1))]⟩ := by
  have h := (c6_loop_amended [("a", 0), ("b", 1)]
    (fun e => if e.target = "a" then 0 else 1)
    [typedEdge "l" "a" "body", plainEdge "l" "b"] "l" "x < 3" "xs" "x"
    (by intro e he; fin_cases he <;> rfl)).1
  simpa using h

theorem lookupA_append {k a : Type} [BEq k] (l1 l2 : List (k × a)) (key : k) :
    lookupA (l1 ++ l2) key = (lookupA l1 key).or (lookupA l2 key) := by
  induction l1 with
  | nil => simp [lookupA]
  | cons p l1 ih =>
      cases h : (p.1 == key) <;>
        simp [lookupA, List.find?_cons, h] <;>
        simpa [lookupA] using ih

theorem mkIdMapGo_none (ns : List Node) :
    ∀ (idx : Nat) (acc m : List (String × Nat)), mkIdMapGo ns idx acc = .ok m →
      ∀ t, lookupA acc t = none → t ∉ ns.map Node.id → lookupA m t = none := by
  induction ns with
  | nil =>
      intro idx acc m h t h1 _
      injection h with h
      exact h ▸ h1
  | cons n rest ih =>
      intro idx acc m h t h1 h2
      rw [mkIdMapGo] at h
      split at h
      · exact absurd h (by simp)
      · have hne : ¬ (t = n.id) := fun he => h2 (by simp [he])
        have hnr : t ∉ rest.map Node.id := fun hm => h2 (by simp [hm])
        refine ih _ _ _ h t ?_ hnr
        rw [lookupA_append, h1]
        have hbeq : (n.id == t) = false := by
          cases hb : n.id == t
          · rfl
          · exact absurd ((beq_iff_eq).mp hb).symm hne
        simp [lookupA, List.find?_cons, hbeq]

theorem mkIdMap_none (ns : List Node) (m : List (String × Nat))
    (h : mkIdMap ns = .ok m) (t : String) (ht : t ∉ ns.map Node.id) :
    lookupA m t = none :=
  mkIdMapGo_none ns 0 [] m h t rfl ht

theorem resolve_err (m : List (String × Nat)) (t : String)
    (h : lookupA m t = none) : isOkE (resolve_target m t) = false := by
  simp [resolve_target, h, isOkE]

theorem isOkE_false_error {b : Type} (x : Except String b)
    (h : isOkE x = false) : ∃ msg, x = .error msg := by
  cases x with
  | error msg => exact ⟨msg, rfl⟩
  | ok v => simp [isOkE] at h

theorem mapME_err {a b : Type} (f : a → Except String b) (l : List a) (x : a)
    (hx : x ∈ l) (hfx : isOkE (f x) = false) : isOkE (mapME f l) = false := by
  induction l with
  | nil => cases hx
  | cons y ys ih =>
      rw [mapME]
      cases hfy : f y with
      | error msg => rfl
      | ok v =>
          rcases List.mem_cons.mp hx with h | h
          · rw [← h] at hfy; rw [hfy] at hfx; simp [isOkE] at hfx
          · have hrec := ih h
            cases hm : mapME f ys with
            | error msg => rfl
            | ok ys2 => rw [hm] at hrec; simp [isOkE] at hrec

theorem loopClassify_err (m : List (String × Nat)) :
    ∀ (es : List Edge) (n0 b0 : Option Nat),
      (∃ e ∈ es, isOkE (resolve_target m e.target) = false) →
      isOkE (loopClassify m es n0 b0) = false := by
  intro es
  induction es with
  | nil => intro n0 b0 h; obtain ⟨e, he, _⟩ := h; cases he
  | cons e0 rest ih =>
      intro n0 b0 h
      rw [loopClassify]
      cases hre : resolve_target m e0.target with
      | error msg => rfl
      | ok t =>
          obtain ⟨e, he, hbad⟩ := h
          rcases List.mem_cons.mp he with hh | hh
          · rw [hh] at hbad; rw [hre] at hbad; simp [isOkE] at hbad
          · cases hb : bodyP e0 with
            | true =>
                show isOkE (loopClassify m rest n0 (some t)) = false
                exact ih _ _ ⟨e, hh, hbad⟩
            | false =>
                show isOkE (loopClassify m rest (some t) b0) = false
                exact ih _ _ ⟨e, hh, hbad⟩

theorem iterClassify_err (m : List (String × Nat)) (nid : String) :
    ∀ (es : List Edge) (n0 b0 : Option Nat),
      (∃ e ∈ es, isOkE (resolve_target m e.target) = false) →
      isOkE (iterClassify m nid es n0 b0) = false := by
  intro es
  induction es with
  | nil => intro n0 b0 h; obtain ⟨e, he, _⟩ := h; cases he
  | cons e0 rest ih =>
      intro n0 b0 h
      rw [iterClassify]
      cases hre : resolve_target m e0.target with
      | error msg => rfl
      | ok t =>
          obtain ⟨e, he, hbad⟩ := h
          rcases List.mem_cons.mp he with hh | hh
          · rw [hh] at hbad; rw [hre] at hbad; simp [isOkE] at hbad
          · cases hb : bodyP e0 with
            | true =>
                cases b0 with
                | some v => rfl
                | none =>
                    show isOkE (iterClassify m nid rest n0 (some t)) = false
                    exact ih _ _ ⟨e, hh, hbad⟩
            | false =>
                cases n0 with
                | some v => rfl
                | none =>
                    show isOkE (iterClassify m nid rest (some t) b0) = false
                    exact ih _ _ ⟨e, hh, hbad⟩

theorem ifClassify_err (m : List (String × Nat))
    (defined : List (List (String × String))) (nid : String) :
    ∀ (es : List Edge) (acc : List Json) (els : Option Nat),
      (∃ e ∈ es, isOkE (resolve_target m e.target) = false) →
      isOkE (ifClassify m defined nid es acc els) = false := by
  intro es
  induction es with
  | nil => intro acc els h; obtain ⟨e, he, _⟩ := h; cases he
  | cons e0 rest ih =>
      intro acc els h
      rw [ifClassify]
      cases hre : resolve_target m e0.target with
      | error msg => rfl
      | ok t =>
          obtain ⟨e, he, hbad⟩ := h
          rcases List.mem_cons.mp he with hh | hh
          · rw [hh] at hbad; rw [hre] at hbad; simp [isOkE] at hbad
          · cases hc : e0.condition with
            | some c => exact ih _ _ ⟨e, hh, hbad⟩
            | none =>
                cases hbi : e0.branch_index with
                | some idx =>
                    show isOkE (match defined.get? idx with
                      | some br =>
                          match lookupA br "condition" with
                          | some c =>
                              ifClassify m defined nid rest
                                (acc ++ [.obj [("condition", .str c),
                                  ("target", Json.ofNat t)]]) els
                          | none =>
                              .error ("Branch " ++ toString idx ++ " for node " ++
                                nid ++ " has no condition")
                      | none =>
                          .error ("Branch index " ++ toString idx ++
                            " out of bounds for node " ++ nid)) = false
                    cases hdb : defined.get? idx with
                    | some br =>
                        show isOkE (match lookupA br "condition" with
                          | some c =>
                              ifClassify m defined nid rest
                                (acc ++ [.obj [("condition", .str c),
                                  ("target", Json.ofNat t)]]) els
                          | none =>
                              .error ("Branch " ++ toString idx ++ " for node " ++
                                nid ++ " has no condition")) = false
                        cases hlc : lookupA br "condition" with
                        | some c =>
                            show isOkE (ifClassify m defined nid rest
                              (acc ++ [.obj [("condition", .str c),
                                ("target", Json.ofNat t)]]) els) = false
                            exact ih _ _ ⟨e, hh, hbad⟩
                        | none => rfl
                    | none => rfl
                | none =>
                    cases hbt : (e0.branch_type == some "else") with
                    | true =>
                        cases els with
                        | some v => rfl
                        | none => exact ih _ _ ⟨e, hh, hbad⟩
                    | false =>
                        cases els with
                        | some v => rfl
                        | none => exact ih _ _ ⟨e, hh, hbad⟩


theorem expandStep_nonparallel (acc : List Node × List Edge) (n : Node)
    (h : isParallelNode n = false) : expandStep acc n = (acc.1 ++ [n], acc.2) := by
  obtain ⟨i, k⟩ := n
  cases k <;> first
    | rfl
    | simp [isParallelNode, Node.kind] at h

theorem expand_eq_self (wf : Workflow)
    (h : ∀ n ∈ wf.nodes, isParallelNode n = false) : expand wf = wf := by
  have hfold : ∀ (ns : List Node) (acc : List Node × List Edge),
      (∀ n ∈ ns, isParallelNode n = false) →
      ns.foldl expandStep acc = (acc.1 ++ ns, acc.2) := by
    intro ns
    induction ns with
    | nil => intro acc _; simp
    | cons n rest ih =>
        intro acc hh
        rw [List.foldl_cons, expandStep_nonparallel acc n (hh n (List.mem_cons_self n rest))]
        rw [ih _ (fun x hx => hh x (List.mem_cons_of_mem n hx))]
        simp
  unfold expand
  rw [hfold wf.nodes ([], wf.edges) h]
  simp

/-- The undefined-id situations that `transform_node` actually checks:
any outgoing edge of an `If`, `Iteration` or `Loop` node with an
undeclared target, or a `Fork` node with an undeclared branch-start id or
join id. -/
def checkedDangling (wf : Workflow) (n : Node) : Prop :=
  match n.kind with
  | .ifNode _ => ∃ e ∈ wf.edges, e.source = n.id ∧ e.target ∉ wf.nodes.map Node.id
  | .iteration _ _ => ∃ e ∈ wf.edges, e.source = n.id ∧ e.target ∉ wf.nodes.map Node.id
  | .loopNode _ => ∃ e ∈ wf.edges, e.source = n.id ∧ e.target ∉ wf.nodes.map Node.id
  | .fork ids jid =>
      (∃ t ∈ ids, t ∉ wf.nodes.map Node.id) ∨ jid ∉ wf.nodes.map Node.id
  | _ => False

theorem outEdges_mem (edges : List Edge) (src : String) (e : Edge)
    (he : e ∈ edges) (hs : e.source = src) : e ∈ outEdges edges src := by
  simp [outEdges, List.mem_filter, he, hs]

theorem transform_node_err (wf : Workflow) (m : List (String × Nat)) (n : Node)
    (hm : ∀ t, t ∉ wf.nodes.map Node.id → lookupA m t = none)
    (hd : checkedDangling wf n) :
    isOkE (transform_node m n (outEdges wf.edges n.id)) = false := by
  obtain ⟨i, k⟩ := n
  cases k with
  | ifNode defined =>
      obtain ⟨e, he, hsrc, htgt⟩ := hd
      have hcl := ifClassify_err m defined i (outEdges wf.edges i) [] none
        ⟨e, outEdges_mem wf.edges i e he hsrc, resolve_err m e.target (hm _ htgt)⟩
      obtain ⟨msg, hmsg⟩ := isOkE_false_error _ hcl
      simp only [transform_node, Node.kind, Node.id]
      simp [hmsg, isOkE]
  | iteration coll iv =>
      obtain ⟨e, he, hsrc, htgt⟩ := hd
      have hcl := iterClassify_err m i (outEdges wf.edges i) none none
        ⟨e, outEdges_mem wf.edges i e he hsrc, resolve_err m e.target (hm _ htgt)⟩
      obtain ⟨msg, hmsg⟩ := isOkE_false_error _ hcl
      simp only [transform_node, Node.kind, Node.id]
      simp [hmsg, isOkE]
  | loopNode cond =>
      obtain ⟨e, he, hsrc, htgt⟩ := hd
      have hcl := loopClassify_err m (outEdges wf.edges i) none none
        ⟨e, outEdges_mem wf.edges i e he hsrc, resolve_err m e.target (hm _ htgt)⟩
      obtain ⟨msg, hmsg⟩ := isOkE_false_error _ hcl
      simp only [transform_node, Node.kind, Node.id]
      simp [hmsg, isOkE]
  | fork ids jid =>
      simp only [transform_node, Node.kind, Node.id]
      rcases hd with ⟨t, ht, htgt⟩ | hjt
      · have hmap := mapME_err (resolve_target m) ids t ht
          (resolve_err m t (hm _ htgt))
        obtain ⟨msg, hmsg⟩ := isOkE_false_error _ hmap
        simp [hmsg, isOkE]
      · cases hmap : mapME (resolve_target m) ids with
        | error msg => rfl
        | ok ts =>
            obtain ⟨msg, hmsg⟩ := isOkE_false_error _ (resolve_err m jid (hm _ hjt))
            simp [hmsg, isOkE]
  | start => cases hd
  | endNode o => cases hd
  | function nm ps o => cases hd
  | assign a e => cases hd
  | parallel bs => cases hd
  | join c => cases hd

/-- Claim C7 (amended): `compile` rejects undefined ids only where it
actually resolves them — every outgoing edge of `If`/`Iteration`/`Loop`
nodes and every id named by a `Fork` node; in any workflow (without
parallel nodes, so that expansion is the identity) containing such a
dangling checked reference, `compile` returns an error. Outgoing edges
of `End` nodes (see the counterexample) and edges after the first on
single-successor nodes are never resolved, so dangling targets there are
not rejected. -/
theorem c7_compile_amended (wf : Workflow)
    (hnp : ∀ n ∈ wf.nodes, isParallelNode n = false)
    (hbad : ∃ n ∈ wf.nodes, checkedDangling wf n) :
    isOkE (compile wf) = false := by
  obtain ⟨n, hn, hd⟩ := hbad
  unfold compile
  rw [expand_eq_self wf hnp]
  cases hid : mkIdMap wf.nodes with
  | error msg => rfl
  | ok m =>
      have hm : ∀ t, t ∉ wf.nodes.map Node.id → lookupA m t = none :=
        fun t ht => mkIdMap_none wf.nodes m hid t ht
      have hmap := mapME_err (fun x => transform_node m x (outEdges wf.edges x.id))
        wf.nodes n hn (transform_node_err wf m n hm hd)
      obtain ⟨msg, hmsg⟩ := isOkE_false_error _ hmap
      simp [hmsg, isOkE]

/-- A workflow whose `Iteration` node has an outgoing body edge pointing
at the undeclared id `ghost`. -/
def c7wfW : Workflow :=
  { id := "w7w", name := "", vars := [],
    nodes := [Node.mk "s" .start, Node.mk "i" (.iteration "xs" "x")],
    edges := [plainEdge "s" "i", typedEdge "i" "ghost" "body"] }

/-- Claim C7, witness: the amended theorem applied to `c7wfW`. -/
theorem c7_compile_amended_witness : isOkE (compile c7wfW) = false :=
  c7_compile_amended c7wfW
    (by intro n hn; fin_cases hn <;> rfl)
    ⟨Node.mk "i" (.iteration "xs" "x"),
     List.Mem.tail _ (List.Mem.head _),
     ⟨typedEdge "i" "ghost" "body",
      List.Mem.tail _ (List.Mem.head _), rfl, by decide⟩⟩


/-! Key-lookup lemmas for the Json object operations. -/

theorem getKey_obj (fields : List (String × Json)) (k : String) :
    (Json.obj fields).getKey k = lookupA fields k := rfl

theorem lookupA_mem {k a : Type} [BEq k] [LawfulBEq k] (l : List (k × a)) (key : k) (v : a)
    (h : lookupA l key = some v) : ∃ kv ∈ l, kv.1 = key ∧ kv.2 = v := by
  unfold lookupA at h
  cases hf : l.find? (fun kv => kv.1 == key) with
  | none => rw [hf] at h; cases h
  | some kv =>
      rw [hf] at h
      refine ⟨kv, List.mem_of_find?_eq_some hf, ?_, ?_⟩
      · have := List.find?_some hf
        exact eq_of_beq this
      · injection h

theorem lookupA_none_of_forall {k a : Type} [BEq k] [LawfulBEq k]
    (l : List (k × a)) (key : k) (h : ∀ kv ∈ l, ¬(kv.1 = key)) :
    lookupA l key = none := by
  unfold lookupA
  rw [List.find?_eq_none.mpr]
  · rfl
  · intro kv hkv
    simp only [beq_eq_false_iff_ne, ne_eq, beq_iff_eq]
    exact h kv hkv

theorem lookupA_cons {κ α : Type} [BEq κ] (p : κ × α) (l : List (κ × α)) (key : κ) :
    lookupA (p :: l) key = if p.1 == key then some p.2 else lookupA l key := by
  unfold lookupA
  cases h : p.1 == key
  · rw [List.find?_cons_of_neg _ (by simp [h]), if_neg (by simp [h])]
  · rw [List.find?_cons_of_pos _ (by simp [h]), if_pos (by simp [h])]
    rfl

theorem lookupA_map_replace_hit (ps : List (String × Json)) (k : String) (v : Json)
    (h : ps.any (fun kv => kv.1 == k) = true) :
    lookupA (ps.map (fun kv => if kv.1 == k then (kv.1, v) else kv)) k = some v := by
  induction ps with
  | nil => cases h
  | cons p rest ih =>
      rw [List.map_cons]
      cases hp : p.1 == k
      · have hrest : rest.any (fun kv => kv.1 == k) = true := by
          rcases List.any_eq_true.mp h with ⟨x, hx, hxk⟩
          rcases List.mem_cons.mp hx with rfl | hx2
          · rw [hp] at hxk; cases hxk
          · exact List.any_eq_true.mpr ⟨x, hx2, hxk⟩
        rw [show ((if false = true then (p.1, v) else p) : String × Json) = p from rfl,
          lookupA_cons, if_neg (by simp [hp])]
        exact ih hrest
      · rw [show ((if true = true then (p.1, v) else p) : String × Json) = (p.1, v)
          from rfl, lookupA_cons]
        simp [hp]

theorem lookupA_map_replace_ne (ps : List (String × Json)) (k : String) (v : Json)
    (k2 : String) (hne : k2 ≠ k) :
    lookupA (ps.map (fun kv => if kv.1 == k then (kv.1, v) else kv)) k2 =
      lookupA ps k2 := by
  induction ps with
  | nil => rfl
  | cons p rest ih =>
      rw [List.map_cons]
      cases hp : p.1 == k
      · rw [show ((if false = true then (p.1, v) else p) : String × Json) = p from rfl,
          lookupA_cons, lookupA_cons]
        cases hp2 : p.1 == k2
        · exact ih
        · rfl
      · have hpk : p.1 = k := eq_of_beq hp
        have hp2 : (p.1 == k2) = false :=
          beq_eq_false_iff_ne.mpr (fun he => hne (he.symm.trans hpk))
        rw [show ((if true = true then (p.1, v) else p) : String × Json) = (p.1, v)
          from rfl, lookupA_cons, lookupA_cons,
          show (((p.1, v) : String × Json).1 == k2) = (p.1 == k2) from rfl, hp2]
        exact ih

theorem getKey_insertKey_obj (ps : List (String × Json)) (k : String) (v : Json)
    (k2 : String) :
    ((Json.obj ps).insertKey k v).getKey k2 =
      if k2 = k then some v else (Json.obj ps).getKey k2 := by
  have hred : (Json.obj ps).insertKey k v =
      if ps.any (fun kv => kv.1 == k) then
        Json.obj (ps.map (fun kv => if kv.1 == k then (kv.1, v) else kv))
      else Json.obj (ps ++ [(k, v)]) := rfl
  rw [hred]
  split
  · next hany =>
      rw [getKey_obj, getKey_obj]
      by_cases hk : k2 = k
      · rw [if_pos hk, hk]
        exact lookupA_map_replace_hit ps k v hany
      · rw [if_neg hk]
        exact lookupA_map_replace_ne ps k v k2 hk
  · next hany =>
      rw [getKey_obj, getKey_obj, lookupA_append]
      by_cases hk : k2 = k
      · rw [if_pos hk, hk]
        have hnone : lookupA ps k = none := by
          apply lookupA_none_of_forall
          intro kv hkv he
          exact hany (List.any_eq_true.mpr ⟨kv, hkv, by simp [he]⟩)
        rw [hnone, lookupA_cons]
        simp
      · rw [if_neg hk]
        have h2 : lookupA [(k, v)] k2 = none := by
          apply lookupA_none_of_forall
          intro kv hkv
          simp at hkv
          subst hkv
          exact fun he => hk he.symm
        rw [h2]
        cases lookupA ps k2 <;> rfl

theorem asU64_ofNat (n : Nat) : Json.asU64 (Json.ofNat n) = some n := by
  simp [Json.asU64, Json.ofNat]

theorem getKey_modifyKey_same (j : Json) (k : String) (f : Json → Json) :
    (j.modifyKey k f).getKey k = (j.getKey k).map f := by
  cases j with
  | obj fields =>
      have hred : (Json.obj fields).modifyKey k f =
          Json.obj (fields.map (fun kv => if kv.1 == k then (kv.1, f kv.2) else kv)) := rfl
      rw [hred, getKey_obj, getKey_obj]
      clear hred
      induction fields with
      | nil => rfl
      | cons p rest ih =>
          rw [List.map_cons]
          cases hp : p.1 == k
          · rw [show ((if false = true then (p.1, f p.2) else p) : String × Json) = p
                from rfl, lookupA_cons, lookupA_cons, if_neg (by simp [hp]),
              if_neg (by simp [hp])]
            exact ih
          · rw [show ((if true = true then (p.1, f p.2) else p) : String × Json) =
                (p.1, f p.2) from rfl, lookupA_cons, lookupA_cons]
            simp [hp]
  | null => rfl
  | bool b => rfl
  | num n => rfl
  | str s => rfl
  | arr xs => rfl

theorem getKey_modifyKey_other (j : Json) (k : String) (f : Json → Json)
    (k2 : String) (hne : k2 ≠ k) :
    (j.modifyKey k f).getKey k2 = j.getKey k2 := by
  cases j with
  | obj fields =>
      have hred : (Json.obj fields).modifyKey k f =
          Json.obj (fields.map (fun kv => if kv.1 == k then (kv.1, f kv.2) else kv)) := rfl
      rw [hred, getKey_obj, getKey_obj]
      clear hred
      induction fields with
      | nil => rfl
      | cons p rest ih =>
          rw [List.map_cons]
          cases hp : p.1 == k
          · rw [show ((if false = true then (p.1, f p.2) else p) : String × Json) = p
                from rfl, lookupA_cons, lookupA_cons]
            cases hp2 : p.1 == k2
            · exact ih
            · rfl
          · have hpk : p.1 = k := eq_of_beq hp
            have hp2 : (p.1 == k2) = false :=
              beq_eq_false_iff_ne.mpr (fun he => hne (he.symm.trans hpk))
            rw [show ((if true = true then (p.1, f p.2) else p) : String × Json) =
                (p.1, f p.2) from rfl, lookupA_cons, lookupA_cons,
              show (((p.1, f p.2) : String × Json).1 == k2) = (p.1 == k2) from rfl, hp2]
            exact ih
  | null => rfl
  | bool b => rfl
  | num n => rfl
  | str s => rfl
  | arr xs => rfl

theorem mkIdMapGo_lt (ns : List Node) :
    ∀ (idx : Nat) (acc m : List (String × Nat)), mkIdMapGo ns idx acc = .ok m →
      (∀ kv ∈ acc, kv.2 < idx) → ∀ kv ∈ m, kv.2 < idx + ns.length := by
  induction ns with
  | nil =>
      intro idx acc m h hacc kv hkv
      injection h with h
      subst h
      simpa using hacc kv hkv
  | cons n rest ih =>
      intro idx acc m h hacc kv hkv
      rw [mkIdMapGo] at h
      split at h
      · exact absurd h (by simp)
      · have hacc2 : ∀ kv ∈ acc ++ [(n.id, idx)], kv.2 < idx + 1 := by
          intro kv2 hkv2
          rcases List.mem_append.mp hkv2 with h2 | h2
          · exact Nat.lt_succ_of_lt (hacc kv2 h2)
          · simp at h2
            simp [h2]
        have := ih (idx + 1) _ m h hacc2 kv hkv
        simpa [Nat.add_assoc, Nat.add_comm, Nat.add_left_comm, List.length_cons] using
          Nat.lt_of_lt_of_le this (by omega)

theorem mkIdMap_lt (ns : List Node) (m : List (String × Nat))
    (h : mkIdMap ns = .ok m) (k : String) (v : Nat)
    (hlk : lookupA m k = some v) : v < ns.length := by
  obtain ⟨kv, hkv, _, hv⟩ := lookupA_mem m k v hlk
  have := mkIdMapGo_lt ns 0 [] m h (by intro kv2 h2; cases h2) kv hkv
  omega

theorem resolve_lt (m : List (String × Nat)) (bound : Nat)
    (hm : ∀ k v, lookupA m k = some v → v < bound)
    (t : String) (v : Nat) (h : resolve_target m t = .ok v) : v < bound := by
  unfold resolve_target at h
  cases hl : lookupA m t with
  | none => rw [hl] at h; cases h
  | some w => rw [hl] at h; injection h with h; exact h ▸ hm t w hl

theorem firstEdgeTarget_lt (m : List (String × Nat)) (bound : Nat)
    (hm : ∀ k v, lookupA m k = some v → v < bound)
    (es : List Edge) (o : Option Nat) (h : firstEdgeTarget m es = .ok o) :
    ∀ v, o = some v → v < bound := by
  intro v hv
  subst hv
  unfold firstEdgeTarget at h
  cases es with
  | nil => cases h
  | cons e rest =>
      simp only [List.head?_cons] at h
      cases hr : resolve_target m e.target with
      | error msg => rw [hr] at h; cases h
      | ok w =>
          rw [hr] at h
          injection h with h
          injection h with h
          exact h ▸ resolve_lt m bound hm e.target w hr

theorem mapME_length {a b : Type} (f : a → Except String b) :
    ∀ (l : List a) (ys : List b), mapME f l = .ok ys → ys.length = l.length := by
  intro l
  induction l with
  | nil => intro ys h; injection h with h; simp [← h]
  | cons x xs ih =>
      intro ys h
      rw [mapME] at h
      cases hf : f x with
      | error msg => rw [hf] at h; cases h
      | ok y =>
          rw [hf] at h
          cases hm : mapME f xs with
          | error msg => rw [hm] at h; cases h
          | ok ys2 =>
              rw [hm] at h
              injection h with h
              simp [← h, ih ys2 hm]

theorem mapME_ok_forall {a b : Type} (f : a → Except String b) :
    ∀ (l : List a) (ys : List b), mapME f l = .ok ys →
      ∀ y ∈ ys, ∃ x ∈ l, f x = .ok y := by
  intro l
  induction l with
  | nil =>
      intro ys h y hy
      injection h with h
      subst h
      cases hy
  | cons x xs ih =>
      intro ys h y hy
      rw [mapME] at h
      cases hf : f x with
      | error msg => rw [hf] at h; cases h
      | ok y0 =>
          rw [hf] at h
          cases hm : mapME f xs with
          | error msg => rw [hm] at h; cases h
          | ok ys2 =>
              rw [hm] at h
              injection h with h
              subst h
              rcases List.mem_cons.mp hy with h | h
              · exact ⟨x, List.mem_cons_self x xs, h ▸ hf⟩
              · obtain ⟨x2, hx2, hfx2⟩ := ih ys2 hm y h
                exact ⟨x2, List.mem_cons_of_mem x hx2, hfx2⟩

theorem mapME_ok_mem {a b : Type} (f : a → Except String b) :
    ∀ (l : List a) (ys : List b), mapME f l = .ok ys →
      ∀ v ∈ ys, ∃ x ∈ l, f x = .ok v :=
  mapME_ok_forall f


/-! Compile-side validity: every index the compiler resolves is in range. -/

/-- The six parameter keys that hold control-flow targets. -/
def reservedKeys : List String :=
  ["next", "targets", "join_target", "branches", "else_next", "body"]

/-- A `Function` node whose user parameters avoid the reserved
control-flow keys; true for every other node. -/
def funcClean (n : Node) : Bool :=
  match n.kind with
  | .function _ ps _ => ps.all (fun kv => !(reservedKeys.contains kv.1))
  | _ => true

theorem loopClassify_lt (m : List (String × Nat)) (bound : Nat)
    (hm : ∀ k v, lookupA m k = some v → v < bound) :
    ∀ (es : List Edge) (n0 b0 next body : Option Nat),
      loopClassify m es n0 b0 = .ok (next, body) →
      (∀ v, n0 = some v → v < bound) → (∀ v, b0 = some v → v < bound) →
      (∀ v, next = some v → v < bound) ∧ (∀ v, body = some v → v < bound) := by
  intro es
  induction es with
  | nil =>
      intro n0 b0 next body h hn hb
      rw [loopClassify] at h
      injection h with h
      injection h with h1 h2
      exact ⟨h1 ▸ hn, h2 ▸ hb⟩
  | cons e rest ih =>
      intro n0 b0 next body h hn hb
      rw [loopClassify] at h
      cases hr : resolve_target m e.target with
      | error msg => rw [hr] at h; cases h
      | ok t =>
          rw [hr] at h
          replace h : (if bodyP e = true then loopClassify m rest n0 (some t)
              else loopClassify m rest (some t) b0) = Except.ok (next, body) := h
          have htb := resolve_lt m bound hm e.target t hr
          cases hbe : bodyP e with
          | true =>
              rw [if_pos hbe] at h
              exact ih _ _ _ _ h hn (fun v hv => by injection hv with hv; omega)
          | false =>
              rw [if_neg (by simp [hbe])] at h
              exact ih _ _ _ _ h (fun v hv => by injection hv with hv; omega) hb

theorem iterClassify_lt (m : List (String × Nat)) (bound : Nat) (nid : String)
    (hm : ∀ k v, lookupA m k = some v → v < bound) :
    ∀ (es : List Edge) (n0 b0 next body : Option Nat),
      iterClassify m nid es n0 b0 = .ok (next, body) →
      (∀ v, n0 = some v → v < bound) → (∀ v, b0 = some v → v < bound) →
      (∀ v, next = some v → v < bound) ∧ (∀ v, body = some v → v < bound) := by
  intro es
  induction es with
  | nil =>
      intro n0 b0 next body h hn hb
      rw [iterClassify] at h
      injection h with h
      injection h with h1 h2
      exact ⟨h1 ▸ hn, h2 ▸ hb⟩
  | cons e rest ih =>
      intro n0 b0 next body h hn hb
      rw [iterClassify] at h
      cases hr : resolve_target m e.target with
      | error msg => rw [hr] at h; cases h
      | ok t =>
          rw [hr] at h
          have htb := resolve_lt m bound hm e.target t hr
          cases hbe : bodyP e with
          | true =>
              rw [hbe] at h
              cases b0 with
              | some v =>
                  replace h : (Except.error ("Multiple body branches for iteration node "
                      ++ nid) : Except String (Option Nat × Option Nat)) =
                    Except.ok (next, body) := h
                  cases h
              | none =>
                  replace h : iterClassify m nid rest n0 (some t) =
                    Except.ok (next, body) := h
                  exact ih _ _ _ _ h hn (fun v hv => by injection hv with hv; omega)
          | false =>
              rw [hbe] at h
              cases n0 with
              | some v =>
                  replace h : (Except.error ("Multiple next branches for iteration node "
                      ++ nid) : Except String (Option Nat × Option Nat)) =
                    Except.ok (next, body) := h
                  cases h
              | none =>
                  replace h : iterClassify m nid rest (some t) b0 =
                    Except.ok (next, body) := h
                  exact ih _ _ _ _ h (fun v hv => by injection hv with hv; omega) hb

theorem branchTarget_of_append (acc : List Json) (c : String) (t : Nat) (bound : Nat)
    (hacc : ∀ b ∈ acc, ∀ v, (b.getKey "target").bind Json.asU64 = some v → v < bound)
    (ht : t < bound) :
    ∀ b ∈ acc ++ [Json.obj [("condition", .str c), ("target", Json.ofNat t)]],
      ∀ v, (b.getKey "target").bind Json.asU64 = some v → v < bound := by
  intro b hb v hv
  rcases List.mem_append.mp hb with h | h
  · exact hacc b h v hv
  · simp only [List.mem_singleton] at h
    subst h
    rw [show (Json.obj [("condition", .str c), ("target", Json.ofNat t)]).getKey "target" =
        some (Json.ofNat t) from rfl] at hv
    rw [show (some (Json.ofNat t)).bind Json.asU64 = some t by
      simp [Option.bind, asU64_ofNat]] at hv
    injection hv with hv
    omega

theorem ifClassify_lt (m : List (String × Nat)) (bound : Nat)
    (defined : List (List (String × String))) (nid : String)
    (hm : ∀ k v, lookupA m k = some v → v < bound) :
    ∀ (es : List Edge) (acc : List Json) (els : Option Nat)
      (branches : List Json) (els2 : Option Nat),
      ifClassify m defined nid es acc els = .ok (branches, els2) →
      (∀ b ∈ acc, ∀ v, (b.getKey "target").bind Json.asU64 = some v → v < bound) →
      (∀ v, els = some v → v < bound) →
      (∀ b ∈ branches, ∀ v, (b.getKey "target").bind Json.asU64 = some v → v < bound) ∧
      (∀ v, els2 = some v → v < bound) := by
  intro es
  induction es with
  | nil =>
      intro acc els branches els2 h hacc hels
      rw [ifClassify] at h
      injection h with h
      injection h with h1 h2
      exact ⟨h1 ▸ hacc, h2 ▸ hels⟩
  | cons e rest ih =>
      intro acc els branches els2 h hacc hels
      rw [ifClassify] at h
      cases hr : resolve_target m e.target with
      | error msg => rw [hr] at h; cases h
      | ok t =>
          rw [hr] at h
          have htb := resolve_lt m bound hm e.target t hr
          cases hc : e.condition with
          | some c =>
              rw [hc] at h
              exact ih _ _ _ _ h (branchTarget_of_append acc c t bound hacc htb) hels
          | none =>
              rw [hc] at h
              cases hbi : e.branch_index with
              | some idx =>
                  rw [hbi] at h
                  replace h : (match defined.get? idx with
                      | some br =>
                          match lookupA br "condition" with
                          | some c =>
                              ifClassify m defined nid rest
                                (acc ++ [Json.obj [("condition", Json.str c),
                                  ("target", Json.ofNat t)]]) els
                          | none =>
                              Except.error ("Branch " ++ toString idx ++ " for node " ++
                                nid ++ " has no condition")
                      | none =>
                          Except.error ("Branch index " ++ toString idx ++
                            " out of bounds for node " ++ nid)) =
                    Except.ok (branches, els2) := h
                  cases hdb : defined.get? idx with
                  | some br =>
                      rw [hdb] at h
                      replace h : (match lookupA br "condition" with
                          | some c =>
                              ifClassify m defined nid rest
                                (acc ++ [Json.obj [("condition", Json.str c),
                                  ("target", Json.ofNat t)]]) els
                          | none =>
                              Except.error ("Branch " ++ toString idx ++ " for node " ++
                                nid ++ " has no condition")) =
                        Except.ok (branches, els2) := h
                      cases hlc : lookupA br "condition" with
                      | some c =>
                          rw [hlc] at h
                          replace h : ifClassify m defined nid rest
                              (acc ++ [Json.obj [("condition", Json.str c),
                                ("target", Json.ofNat t)]]) els =
                            Except.ok (branches, els2) := h
                          exact ih _ _ _ _ h
                            (branchTarget_of_append acc c t bound hacc htb) hels
                      | none =>
                          rw [hlc] at h
                          replace h : (Except.error ("Branch " ++ toString idx ++
                              " for node " ++ nid ++ " has no condition") :
                              Except String (List Json × Option Nat)) =
                            Except.ok (branches, els2) := h
                          cases h
                  | none =>
                      rw [hdb] at h
                      replace h : (Except.error ("Branch index " ++ toString idx ++
                          " out of bounds for node " ++ nid) :
                          Except String (List Json × Option Nat)) =
                        Except.ok (branches, els2) := h
                      cases h
              | none =>
                  rw [hbi] at h
                  cases hbt : (e.branch_type == some "else") with
                  | true =>
                      rw [hbt] at h
                      cases els with
                      | some v =>
                          replace h : (Except.error
                              ("Multiple else branches found for node " ++ nid) :
                              Except String (List Json × Option Nat)) =
                            Except.ok (branches, els2) := h
                          cases h
                      | none =>
                          replace h : ifClassify m defined nid rest acc (some t) =
                            Except.ok (branches, els2) := h
                          exact ih _ _ _ _ h hacc
                            (fun v hv => by injection hv with hv; omega)
                  | false =>
                      rw [hbt] at h
                      cases els with
                      | some v =>
                          replace h : (Except.error
                              ("Multiple else/default branches found for node " ++ nid) :
                              Except String (List Json × Option Nat)) =
                            Except.ok (branches, els2) := h
                          cases h
                      | none =>
                          replace h : ifClassify m defined nid rest acc (some t) =
                            Except.ok (branches, els2) := h
                          exact ih _ _ _ _ h hacc
                            (fun v hv => by injection hv with hv; omega)


theorem extract_targets_bound (bn : BlueprintNode) (bound : Nat)
    (h1 : ∀ v, (bn.params.getKey "next").bind Json.asU64 = some v → v < bound)
    (h2 : ∀ ts, (bn.params.getKey "targets").bind Json.asArr = some ts →
      ∀ v ∈ ts.filterMap Json.asU64, v < bound)
    (h3 : ∀ v, (bn.params.getKey "join_target").bind Json.asU64 = some v → v < bound)
    (h4 : ∀ bs, (bn.params.getKey "branches").bind Json.asArr = some bs →
      ∀ b ∈ bs, ∀ v, (b.getKey "target").bind Json.asU64 = some v → v < bound)
    (h5 : ∀ v, (bn.params.getKey "else_next").bind Json.asU64 = some v → v < bound)
    (h6 : ∀ v, (bn.params.getKey "body").bind Json.asU64 = some v → v < bound) :
    ∀ t ∈ extract_targets bn, t < bound := by
  intro t ht
  unfold extract_targets keyU64 at ht
  rcases List.mem_append.mp ht with ht | ht6
  rcases List.mem_append.mp ht with ht | ht5
  rcases List.mem_append.mp ht with ht | ht4
  rcases List.mem_append.mp ht with ht | ht3
  rcases List.mem_append.mp ht with ht1 | ht2
  · revert ht1
    cases h : (bn.params.getKey "next").bind Json.asU64 with
    | none => intro ht1; cases ht1
    | some n => intro ht1; simp at ht1; exact ht1 ▸ h1 n h
  · revert ht2
    cases h : (bn.params.getKey "targets").bind Json.asArr with
    | none => intro ht2; cases ht2
    | some ts => intro ht2; exact h2 ts h t ht2
  · revert ht3
    cases h : (bn.params.getKey "join_target").bind Json.asU64 with
    | none => intro ht3; cases ht3
    | some n => intro ht3; simp at ht3; exact ht3 ▸ h3 n h
  · revert ht4
    cases h : (bn.params.getKey "branches").bind Json.asArr with
    | none => intro ht4; cases ht4
    | some bs =>
        intro ht4
        obtain ⟨b, hb, hbv⟩ := List.mem_filterMap.mp ht4
        exact h4 bs h b hb t (by simpa [Option.bind] using hbv)
  · revert ht5
    cases h : (bn.params.getKey "else_next").bind Json.asU64 with
    | none => intro ht5; cases ht5
    | some n => intro ht5; simp at ht5; exact ht5 ▸ h5 n h
  · revert ht6
    cases h : (bn.params.getKey "body").bind Json.asU64 with
    | none => intro ht6; cases ht6
    | some n => intro ht6; simp at ht6; exact ht6 ▸ h6 n h


theorem bound_of_none {bound : Nat} {o : Option Json} (h : o = none) :
    ∀ v, o.bind Json.asU64 = some v → v < bound := by
  intro v hv; rw [h] at hv; cases hv

theorem boundArr_of_none {bound : Nat} {o : Option Json} (h : o = none) :
    ∀ ts, o.bind Json.asArr = some ts → ∀ v ∈ ts.filterMap Json.asU64, v < bound := by
  intro ts hv; rw [h] at hv; cases hv

theorem boundBr_of_none {bound : Nat} {o : Option Json} (h : o = none) :
    ∀ bs, o.bind Json.asArr = some bs →
      ∀ b ∈ bs, ∀ v, (b.getKey "target").bind Json.asU64 = some v → v < bound := by
  intro bs hv; rw [h] at hv; cases hv

theorem bound_of_optNum {bound : Nat} {o : Option Json} (onat : Option Nat)
    (h : o = some (optNum onat)) (hb : ∀ v, onat = some v → v < bound) :
    ∀ v, o.bind Json.asU64 = some v → v < bound := by
  intro v hv
  rw [h] at hv
  cases onat with
  | some n =>
      rw [show (some (optNum (some n))).bind Json.asU64 = some n by
        simp [optNum, asU64_ofNat]] at hv
      injection hv with hv
      exact hv ▸ hb n rfl
  | none =>
      rw [show (some (optNum none)).bind Json.asU64 = none from rfl] at hv
      cases hv

theorem bound_of_ofNat {bound : Nat} {o : Option Json} (t : Nat)
    (h : o = some (Json.ofNat t)) (hb : t < bound) :
    ∀ v, o.bind Json.asU64 = some v → v < bound := by
  intro v hv
  rw [h] at hv
  rw [show (some (Json.ofNat t)).bind Json.asU64 = some t by simp [asU64_ofNat]] at hv
  injection hv with hv
  omega

theorem bound_of_ofNatArr {bound : Nat} {o : Option Json} (ts : List Nat)
    (h : o = some (.arr (ts.map Json.ofNat))) (hb : ∀ v ∈ ts, v < bound) :
    ∀ l, o.bind Json.asArr = some l → ∀ v ∈ l.filterMap Json.asU64, v < bound := by
  intro l hl v hv
  rw [h] at hl
  rw [show (some (Json.arr (ts.map Json.ofNat))).bind Json.asArr =
    some (ts.map Json.ofNat) from rfl] at hl
  injection hl with hl
  subst hl
  rw [List.filterMap_map] at hv
  have hx : ∀ x : Nat, (Json.asU64 ∘ Json.ofNat) x = some x := fun x => asU64_ofNat x
  rcases List.mem_filterMap.mp hv with ⟨a, ha, hfa⟩
  rw [hx a] at hfa
  injection hfa with hfa
  exact hfa ▸ hb a ha

theorem bound_of_branchArr {bound : Nat} {o : Option Json} (bs : List Json)
    (h : o = some (.arr bs))
    (hb : ∀ b ∈ bs, ∀ v, (b.getKey "target").bind Json.asU64 = some v → v < bound) :
    ∀ l, o.bind Json.asArr = some l →
      ∀ b ∈ l, ∀ v, (b.getKey "target").bind Json.asU64 = some v → v < bound := by
  intro l hl
  rw [h] at hl
  rw [show (some (Json.arr bs)).bind Json.asArr = some bs from rfl] at hl
  injection hl with hl
  subst hl
  exact hb

theorem insertKey_obj_is_obj (ps : List (String × Json)) (k : String) (v : Json) :
    ∃ qs, (Json.obj ps).insertKey k v = Json.obj qs := by
  have hred : (Json.obj ps).insertKey k v =
      if ps.any (fun kv => kv.1 == k) then
        Json.obj (ps.map (fun kv => if kv.1 == k then (kv.1, v) else kv))
      else Json.obj (ps ++ [(k, v)]) := rfl
  by_cases hc : ps.any (fun kv => kv.1 == k) = true
  · exact ⟨_, by rw [hred, if_pos hc]⟩
  · exact ⟨_, by rw [hred, if_neg hc]⟩

theorem funcClean_none (ps : List (String × Json))
    (hfc : ps.all (fun kv => !(reservedKeys.contains kv.1)) = true)
    (k : String) (hk : reservedKeys.contains k = true) : lookupA ps k = none := by
  apply lookupA_none_of_forall
  intro kv hkv he
  have := List.all_eq_true.mp hfc kv hkv
  rw [he] at this
  rw [hk] at this
  cases this


theorem transform_node_valid (m : List (String × Nat)) (bound : Nat)
    (hm : ∀ k v, lookupA m k = some v → v < bound)
    (n : Node) (edges : List Edge) (bn : BlueprintNode)
    (hfc : funcClean n = true)
    (ht : transform_node m n edges = .ok bn) :
    ∀ t ∈ extract_targets bn, t < bound := by
  obtain ⟨i, k⟩ := n
  cases k with
  | start =>
      simp only [transform_node, Node.kind, Node.id] at ht
      cases hf : firstEdgeTarget m edges with
      | error msg => rw [hf] at ht; cases ht
      | ok next =>
          rw [hf] at ht
          injection ht with ht
          subst ht
          exact extract_targets_bound _ bound
            (bound_of_optNum next rfl (firstEdgeTarget_lt m bound hm edges next hf))
            (boundArr_of_none rfl) (bound_of_none rfl) (boundBr_of_none rfl)
            (bound_of_none rfl) (bound_of_none rfl)
  | endNode o =>
      simp only [transform_node, Node.kind, Node.id] at ht
      injection ht with ht
      subst ht
      exact extract_targets_bound _ bound
        (bound_of_none rfl) (boundArr_of_none rfl) (bound_of_none rfl)
        (boundBr_of_none rfl) (bound_of_none rfl) (bound_of_none rfl)
  | function name ps output =>
      have hclean : ps.all (fun kv => !(reservedKeys.contains kv.1)) = true := by
        simpa [funcClean, Node.kind] using hfc
      simp only [transform_node, Node.kind, Node.id] at ht
      cases hf : firstEdgeTarget m edges with
      | error msg => rw [hf] at ht; cases ht
      | ok next =>
          rw [hf] at ht
          injection ht with ht
          subst ht
          clear hfc
          cases output with
          | some o =>
              cases next with
              | some nx =>
                  have hnx : nx < bound :=
                    firstEdgeTarget_lt m bound hm edges (some nx) hf nx rfl
                  have hP : ∀ k2, reservedKeys.contains k2 = true →
                      (((Json.obj ps).insertKey "next" (Json.ofNat nx)).insertKey
                        "output" (Json.str o)).getKey k2 =
                      (if k2 = "next" then some (Json.ofNat nx) else none) := by
                    intro k2 hk2
                    have hne : k2 ≠ "output" := by
                      intro he
                      rw [he] at hk2
                      exact absurd hk2 (by decide)
                    obtain ⟨qs, hqs⟩ := insertKey_obj_is_obj ps "next" (Json.ofNat nx)
                    rw [hqs, getKey_insertKey_obj qs "output" (Json.str o) k2,
                      if_neg hne, ← hqs, getKey_insertKey_obj ps "next" (Json.ofNat nx) k2]
                    by_cases hk : k2 = "next"
                    · rw [if_pos hk, if_pos hk]
                    · rw [if_neg hk, if_neg hk, getKey_obj]
                      exact funcClean_none ps hclean k2 hk2
                  exact extract_targets_bound _ bound
                    (bound_of_ofNat nx ((hP "next" rfl).trans (if_pos rfl)) hnx)
                    (boundArr_of_none ((hP "targets" rfl).trans (if_neg (by decide))))
                    (bound_of_none ((hP "join_target" rfl).trans (if_neg (by decide))))
                    (boundBr_of_none ((hP "branches" rfl).trans (if_neg (by decide))))
                    (bound_of_none ((hP "else_next" rfl).trans (if_neg (by decide))))
                    (bound_of_none ((hP "body" rfl).trans (if_neg (by decide))))
              | none =>
                  have hP : ∀ k2, reservedKeys.contains k2 = true →
                      ((Json.obj ps).insertKey "output" (Json.str o)).getKey k2 = none := by
                    intro k2 hk2
                    have hne : k2 ≠ "output" := by
                      intro he
                      rw [he] at hk2
                      exact absurd hk2 (by decide)
                    rw [getKey_insertKey_obj ps "output" (Json.str o) k2, if_neg hne,
                      getKey_obj]
                    exact funcClean_none ps hclean k2 hk2
                  exact extract_targets_bound _ bound
                    (bound_of_none (hP "next" rfl)) (boundArr_of_none (hP "targets" rfl))
                    (bound_of_none (hP "join_target" rfl))
                    (boundBr_of_none (hP "branches" rfl))
                    (bound_of_none (hP "else_next" rfl)) (bound_of_none (hP "body" rfl))
          | none =>
              cases next with
              | some nx =>
                  have hnx : nx < bound :=
                    firstEdgeTarget_lt m bound hm edges (some nx) hf nx rfl
                  have hP : ∀ k2, reservedKeys.contains k2 = true →
                      ((Json.obj ps).insertKey "next" (Json.ofNat nx)).getKey k2 =
                      (if k2 = "next" then some (Json.ofNat nx) else none) := by
                    intro k2 hk2
                    rw [getKey_insertKey_obj ps "next" (Json.ofNat nx) k2]
                    by_cases hk : k2 = "next"
                    · rw [if_pos hk, if_pos hk]
                    · rw [if_neg hk, if_neg hk, getKey_obj]
                      exact funcClean_none ps hclean k2 hk2
                  exact extract_targets_bound _ bound
                    (bound_of_ofNat nx ((hP "next" rfl).trans (if_pos rfl)) hnx)
                    (boundArr_of_none ((hP "targets" rfl).trans (if_neg (by decide))))
                    (bound_of_none ((hP "join_target" rfl).trans (if_neg (by decide))))
                    (boundBr_of_none ((hP "branches" rfl).trans (if_neg (by decide))))
                    (bound_of_none ((hP "else_next" rfl).trans (if_neg (by decide))))
                    (bound_of_none ((hP "body" rfl).trans (if_neg (by decide))))
              | none =>
                  have hP : ∀ k2, reservedKeys.contains k2 = true →
                      (Json.obj ps).getKey k2 = none := by
                    intro k2 hk2
                    rw [getKey_obj]
                    exact funcClean_none ps hclean k2 hk2
                  exact extract_targets_bound _ bound
                    (bound_of_none (hP "next" rfl)) (boundArr_of_none (hP "targets" rfl))
                    (bound_of_none (hP "join_target" rfl))
                    (boundBr_of_none (hP "branches" rfl))
                    (bound_of_none (hP "else_next" rfl)) (bound_of_none (hP "body" rfl))
  | assign asg expr =>
      simp only [transform_node, Node.kind, Node.id] at ht
      cases hf : firstEdgeTarget m edges with
      | error msg => rw [hf] at ht; cases ht
      | ok next =>
          rw [hf] at ht
          injection ht with ht
          subst ht
          cases next with
          | some nx =>
              exact extract_targets_bound _ bound
                (bound_of_ofNat nx rfl
                  (firstEdgeTarget_lt m bound hm edges (some nx) hf nx rfl))
                (boundArr_of_none rfl) (bound_of_none rfl) (boundBr_of_none rfl)
                (bound_of_none rfl) (bound_of_none rfl)
          | none =>
              exact extract_targets_bound _ bound
                (bound_of_none rfl) (boundArr_of_none rfl) (bound_of_none rfl)
                (boundBr_of_none rfl) (bound_of_none rfl) (bound_of_none rfl)
  | iteration coll iv =>
      simp only [transform_node, Node.kind, Node.id] at ht
      cases hc : iterClassify m i edges none none with
      | error msg => rw [hc] at ht; cases ht
      | ok nb =>
          obtain ⟨next, body⟩ := nb
          rw [hc] at ht
          injection ht with ht
          subst ht
          obtain ⟨hn, hb⟩ := iterClassify_lt m bound i hm edges none none next body hc
            (fun v hv => by cases hv) (fun v hv => by cases hv)
          exact extract_targets_bound _ bound
            (bound_of_optNum next rfl hn) (boundArr_of_none rfl) (bound_of_none rfl)
            (boundBr_of_none rfl) (bound_of_none rfl) (bound_of_optNum body rfl hb)
  | loopNode cond =>
      simp only [transform_node, Node.kind, Node.id] at ht
      cases hc : loopClassify m edges none none with
      | error msg => rw [hc] at ht; cases ht
      | ok nb =>
          obtain ⟨next, body⟩ := nb
          rw [hc] at ht
          injection ht with ht
          subst ht
          obtain ⟨hn, hb⟩ := loopClassify_lt m bound hm edges none none next body hc
            (fun v hv => by cases hv) (fun v hv => by cases hv)
          exact extract_targets_bound _ bound
            (bound_of_optNum next rfl hn) (boundArr_of_none rfl) (bound_of_none rfl)
            (boundBr_of_none rfl) (bound_of_none rfl) (bound_of_optNum body rfl hb)
  | ifNode defined =>
      simp only [transform_node, Node.kind, Node.id] at ht
      cases hc : ifClassify m defined i edges [] none with
      | error msg => rw [hc] at ht; cases ht
      | ok be =>
          obtain ⟨branches, els⟩ := be
          rw [hc] at ht
          injection ht with ht
          subst ht
          obtain ⟨hbr, hel⟩ := ifClassify_lt m bound defined i hm edges [] none
            branches els hc (fun b hb => by cases hb) (fun v hv => by cases hv)
          exact extract_targets_bound _ bound
            (bound_of_none rfl) (boundArr_of_none rfl) (bound_of_none rfl)
            (bound_of_branchArr branches rfl hbr) (bound_of_optNum els rfl hel)
            (bound_of_none rfl)
  | parallel bs =>
      simp only [transform_node, Node.kind, Node.id] at ht
      cases ht
  | fork ids jid =>
      simp only [transform_node, Node.kind, Node.id] at ht
      cases hmp : mapME (resolve_target m) ids with
      | error msg => rw [hmp] at ht; cases ht
      | ok ts =>
          rw [hmp] at ht
          cases hj : resolve_target m jid with
          | error msg => rw [hj] at ht; cases ht
          | ok jt =>
              rw [hj] at ht
              injection ht with ht
              subst ht
              have hts : ∀ v ∈ ts, v < bound := by
                intro v hv
                obtain ⟨x, _, hx⟩ := mapME_ok_mem (resolve_target m) ids ts hmp v hv
                exact resolve_lt m bound hm x v hx
              exact extract_targets_bound _ bound
                (bound_of_none rfl) (bound_of_ofNatArr ts rfl hts)
                (bound_of_ofNat jt rfl (resolve_lt m bound hm jid jt hj))
                (boundBr_of_none rfl) (bound_of_none rfl) (bound_of_none rfl)
  | join c =>
      simp only [transform_node, Node.kind, Node.id] at ht
      cases hf : firstEdgeTarget m edges with
      | error msg => rw [hf] at ht; cases ht
      | ok next =>
          rw [hf] at ht
          injection ht with ht
          subst ht
          exact extract_targets_bound _ bound
            (bound_of_optNum next rfl (firstEdgeTarget_lt m bound hm edges next hf))
            (boundArr_of_none rfl) (bound_of_none rfl) (boundBr_of_none rfl)
            (bound_of_none rfl) (bound_of_none rfl)


theorem compile_valid (wf : Workflow) (bp : Blueprint)
    (hclean : ∀ n ∈ (expand wf).nodes, funcClean n = true)
    (ht : compile wf = .ok bp) :
    validB bp = true := by
  unfold compile at ht
  cases hid : mkIdMap (expand wf).nodes with
  | error msg => rw [hid] at ht; cases ht
  | ok m =>
      rw [hid] at ht
      replace ht : (match mapME (fun n => transform_node m n
            (outEdges (expand wf).edges n.id)) (expand wf).nodes with
          | Except.error msg => Except.error msg
          | Except.ok bnodes =>
            match List.find? isStartNode (expand wf).nodes with
            | none => Except.error "Start node not found"
            | some sn =>
              match lookupA m sn.id with
              | some i =>
                  Except.ok (⟨(expand wf).id, (expand wf).name, bnodes, i⟩ : Blueprint)
              | none => Except.error "start node id missing from id map") =
        Except.ok bp := ht
      cases hmap : mapME (fun n => transform_node m n (outEdges (expand wf).edges n.id))
          (expand wf).nodes with
      | error msg => rw [hmap] at ht; cases ht
      | ok bnodes =>
          rw [hmap] at ht
          replace ht : (match List.find? isStartNode (expand wf).nodes with
              | none => Except.error "Start node not found"
              | some sn =>
                match lookupA m sn.id with
                | some i =>
                    Except.ok (⟨(expand wf).id, (expand wf).name, bnodes, i⟩ : Blueprint)
                | none =>
                    (Except.error "start node id missing from id map" :
                      Except String Blueprint)) = Except.ok bp := ht
          cases hfind : (expand wf).nodes.find? isStartNode with
          | none => rw [hfind] at ht; cases ht
          | some sn =>
              rw [hfind] at ht
              replace ht : (match lookupA m sn.id with
                  | some i =>
                      Except.ok (⟨(expand wf).id, (expand wf).name, bnodes, i⟩ : Blueprint)
                  | none =>
                      (Except.error "start node id missing from id map" :
                        Except String Blueprint)) = Except.ok bp := ht
              cases hlk : lookupA m sn.id with
              | none => rw [hlk] at ht; cases ht
              | some idx =>
                  rw [hlk] at ht
                  injection ht with ht
                  subst ht
                  have hlen : bnodes.length = (expand wf).nodes.length :=
                    mapME_length _ _ _ hmap
                  have hmb : ∀ k v, lookupA m k = some v → v < bnodes.length := by
                    rw [hlen]
                    exact fun k v h => mkIdMap_lt _ m hid k v h
                  unfold validB
                  rw [Bool.and_eq_true]
                  constructor
                  · rw [List.all_eq_true]
                    intro bn hbn
                    obtain ⟨n, hn, htn⟩ := mapME_ok_forall _ _ _ hmap bn hbn
                    have hv := transform_node_valid m bnodes.length hmb n _ bn
                      (hclean n hn) htn
                    unfold validNode
                    rw [List.all_eq_true]
                    intro t ht2
                    simpa using hv t ht2
                  · simpa using hmb sn.id idx hlk


/-! Optimizer preservation: merged nodes are never targeted by kept nodes. -/

theorem adjOf_lt (nodes : List BlueprintNode) (u t : Nat)
    (h : t ∈ adjOf nodes u) : t < nodes.length := by
  unfold adjOf at h
  cases hq : nodes.get? u with
  | none => rw [hq] at h; cases h
  | some nd =>
      rw [hq] at h
      have := List.of_mem_filter h
      simpa using this

theorem adjOf_src_lt (nodes : List BlueprintNode) (p : Nat)
    (h : adjOf nodes p ≠ []) : p < nodes.length := by
  unfold adjOf at h
  cases hq : nodes.get? p with
  | none => rw [hq] at h; exact absurd rfl h
  | some nd =>
      have := List.get?_eq_some.mp hq
      exact this.1

/-- Invariant of the chain scan: every merged node has in-degree one, is
sync, and its unique predecessor is itself merged or a recorded chain
head. -/
def MergedP (nodes : List BlueprintNode) (lookup : String → Option ExecutionMode)
    (chains : List (Nat × List Nat)) (merged : List Nat) : Prop :=
  ∀ m ∈ merged, degOf nodes m = 1 ∧
    is_sync lookup (nodes.getD m defaultBN) = true ∧
    ∃ p, adjOf nodes p = [m] ∧ m ≠ p ∧
      (p ∈ merged ∨ (lookupA chains p).isSome = true)

/-- The stop condition of the chain-extension loop at a chain's last
element: no further fusible successor exists. -/
def StopP (nodes : List BlueprintNode) (lookup : String → Option ExecutionMode)
    (last : Nat) : Prop :=
  ∀ t, adjOf nodes last = [t] → t ≠ last →
    ¬(degOf nodes t = 1 ∧ is_sync lookup (nodes.getD t defaultBN) = true)

/-- Invariant of the recorded chains: each chain's last element is in
range and satisfies the stop condition. -/
def ChainsP (nodes : List BlueprintNode) (lookup : String → Option ExecutionMode)
    (chains : List (Nat × List Nat)) : Prop :=
  ∀ hc ∈ chains, hc.2.getLastD hc.1 < nodes.length ∧
    StopP nodes lookup (hc.2.getLastD hc.1)

theorem chainExt_spec (nodes : List BlueprintNode)
    (lookup : String → Option ExecutionMode) :
    ∀ (fuel curr : Nat) (chain merged c2 m2 : List Nat),
      chainExt nodes lookup fuel curr chain merged = some (c2, m2) →
      (∃ pre, chain = pre ++ [curr]) →
      ∃ ext, c2 = chain ++ ext ∧
        (∀ x, x ∈ m2 ↔ (x ∈ ext ∨ x ∈ merged)) ∧
        (∀ x ∈ ext, degOf nodes x = 1 ∧
          is_sync lookup (nodes.getD x defaultBN) = true ∧ x < nodes.length ∧
          ∃ p ∈ c2, adjOf nodes p = [x] ∧ x ≠ p) ∧
        (∃ lst pre2, c2 = pre2 ++ [lst] ∧ StopP nodes lookup lst ∧
          (lst ∈ chain ∨ lst ∈ ext)) := by
  intro fuel
  induction fuel with
  | zero => intro curr chain merged c2 m2 h; cases h
  | succ f ih =>
      intro curr chain merged c2 m2 h hch
      obtain ⟨pre, hpre⟩ := hch
      rw [chainExt] at h
      cases hadj : adjOf nodes curr with
      | nil =>
          rw [hadj] at h
          injection h with h
          injection h with h1 h2
          subst h1
          subst h2
          refine ⟨[], by simp, by simp, by simp, curr, pre, hpre, ?_, ?_⟩
          · intro t hadj2 _ _
            rw [hadj] at hadj2
            cases hadj2
          · left; rw [hpre]; simp
      | cons next tl =>
          cases tl with
          | cons y ys =>
              rw [hadj] at h
              injection h with h
              injection h with h1 h2
              subst h1
              subst h2
              refine ⟨[], by simp, by simp, by simp, curr, pre, hpre, ?_, ?_⟩
              · intro t hadj2 _ _
                rw [hadj] at hadj2
                cases hadj2
              · left; rw [hpre]; simp
          | nil =>
              rw [hadj] at h
              replace h : (if next = curr then some (chain, merged)
                  else if degOf nodes next = 1 ∧
                      is_sync lookup (nodes.getD next defaultBN) = true then
                    chainExt nodes lookup f next (chain ++ [next]) (next :: merged)
                  else some (chain, merged)) = some (c2, m2) := h
              by_cases hnc : next = curr
              · rw [if_pos hnc] at h
                injection h with h
                injection h with h1 h2
                subst h1
                subst h2
                refine ⟨[], by simp, by simp, by simp, curr, pre, hpre, ?_, ?_⟩
                · intro t hadj2 htne _
                  rw [hadj] at hadj2
                  injection hadj2 with h3 _
                  exact htne (h3.symm.trans hnc)
                · left; rw [hpre]; simp
              · rw [if_neg hnc] at h
                by_cases hcond : degOf nodes next = 1 ∧
                    is_sync lookup (nodes.getD next defaultBN) = true
                · rw [if_pos hcond] at h
                  obtain ⟨ext2, hc2, hm2, hprop, lst, pre2, hlast, hstop, hlstmem⟩ :=
                    ih next (chain ++ [next]) (next :: merged) c2 m2 h ⟨chain, rfl⟩
                  refine ⟨next :: ext2, by simpa [List.append_assoc] using hc2, ?_, ?_,
                    lst, pre2, hlast, hstop, ?_⟩
                  · intro x
                    rw [hm2 x]
                    constructor
                    · rintro (hx | hx)
                      · exact Or.inl (List.mem_cons_of_mem next hx)
                      · rcases List.mem_cons.mp hx with hx | hx
                        · exact Or.inl (hx ▸ List.mem_cons_self next ext2)
                        · exact Or.inr hx
                    · rintro (hx | hx)
                      · rcases List.mem_cons.mp hx with hx | hx
                        · exact Or.inr (hx ▸ List.mem_cons_self next merged)
                        · exact Or.inl hx
                      · exact Or.inr (List.mem_cons_of_mem next hx)
                  · intro x hx
                    rcases List.mem_cons.mp hx with hx | hx
                    · subst hx
                      refine ⟨hcond.1, hcond.2, ?_, curr, ?_, hadj, hnc⟩
                      · exact adjOf_lt nodes curr x (hadj ▸ List.mem_singleton.mpr rfl)
                      · rw [hc2, hpre]; simp
                    · obtain ⟨d1, d2, d3, p, hp, hpadj, hpne⟩ := hprop x hx
                      exact ⟨d1, d2, d3, p, by simpa [List.append_assoc] using hp,
                        hpadj, hpne⟩
                  · rcases hlstmem with hl | hl
                    · rcases List.mem_append.mp hl with hl | hl
                      · exact Or.inl hl
                      · simp at hl
                        exact Or.inr (hl ▸ List.mem_cons_self next ext2)
                    · exact Or.inr (List.mem_cons_of_mem next hl)
                · rw [if_neg hcond] at h
                  injection h with h
                  injection h with h1 h2
                  subst h1
                  subst h2
                  refine ⟨[], by simp, by simp, by simp, curr, pre, hpre, ?_, ?_⟩
                  · intro t hadj2 htne
                    rw [hadj] at hadj2
                    injection hadj2 with h3 _
                    subst h3
                    exact hcond
                  · left; rw [hpre]; simp


theorem lookupA_isSome_append {k a : Type} [BEq k] (l1 l2 : List (k × a)) (key : k)
    (h : (lookupA l1 key).isSome = true) : (lookupA (l1 ++ l2) key).isSome = true := by
  rw [lookupA_append]
  cases hl : lookupA l1 key with
  | none => rw [hl] at h; cases h
  | some v => simp [Option.or]

theorem lookupA_isSome_self {a : Type} (l : List (Nat × a)) (key : Nat) (v : a) :
    (lookupA (l ++ [(key, v)]) key).isSome = true := by
  rw [lookupA_append]
  cases hl : lookupA l key with
  | none => simp [Option.or, lookupA, List.find?]
  | some w => simp [Option.or]

theorem scanChainsGo_spec (nodes : List BlueprintNode)
    (lookup : String → Option ExecutionMode) (fuel : Nat) :
    ∀ (idxs : List Nat) (chains : List (Nat × List Nat)) (merged : List Nat)
      (chains2 : List (Nat × List Nat)) (merged2 : List Nat),
      scanChainsGo nodes lookup fuel idxs chains merged = some (chains2, merged2) →
      (∀ i ∈ idxs, i < nodes.length) →
      MergedP nodes lookup chains merged →
      ChainsP nodes lookup chains →
      MergedP nodes lookup chains2 merged2 ∧ ChainsP nodes lookup chains2 := by
  intro idxs
  induction idxs with
  | nil =>
      intro chains merged chains2 merged2 h _ hM hC
      rw [scanChainsGo] at h
      injection h with h
      injection h with h1 h2
      subst h1
      subst h2
      exact ⟨hM, hC⟩
  | cons i rest ih =>
      intro chains merged chains2 merged2 h hlt hM hC
      rw [scanChainsGo] at h
      by_cases hmi : merged.contains i
      · rw [if_pos hmi] at h
        exact ih chains merged chains2 merged2 h
          (fun j hj => hlt j (List.mem_cons_of_mem i hj)) hM hC
      · rw [if_neg hmi] at h
        by_cases hsi : is_sync lookup (nodes.getD i defaultBN) = true
        · rw [if_pos hsi] at h
          cases hce : chainExt nodes lookup fuel i [i] merged with
          | none => rw [hce] at h; cases h
          | some cm =>
              obtain ⟨c2, m2⟩ := cm
              rw [hce] at h
              obtain ⟨ext, hc2, hm2, hprop, lst, pre2, hlast, hstop, hlstmem⟩ :=
                chainExt_spec nodes lookup fuel i [i] merged c2 m2 hce ⟨[], rfl⟩
              have hin : i < nodes.length := hlt i (List.mem_cons_self i rest)
              have hchains2P : ∀ ch2, (ch2 = (if c2.length > 1
                  then chains ++ [(i, c2)] else chains)) →
                  MergedP nodes lookup ch2 m2 ∧ ChainsP nodes lookup ch2 := by
                intro ch2 hch2
                have hmono : ∀ p, (lookupA chains p).isSome = true →
                    (lookupA ch2 p).isSome = true := by
                  intro p hp
                  rw [hch2]
                  split
                  · exact lookupA_isSome_append chains [(i, c2)] p hp
                  · exact hp
                constructor
                · intro x hx
                  rcases (hm2 x).mp hx with hxe | hxm
                  · obtain ⟨d1, d2, d3, p, hpc2, hpadj, hpne⟩ := hprop x hxe
                    refine ⟨d1, d2, p, hpadj, hpne, ?_⟩
                    rw [hc2] at hpc2
                    rcases List.mem_append.mp hpc2 with hp | hp
                    · simp at hp
                      subst hp
                      right
                      rw [hch2]
                      have hlen : c2.length > 1 := by
                        rw [hc2]
                        cases ext with
                        | nil => cases hxe
                        | cons a b => simp
                      rw [if_pos hlen]
                      exact lookupA_isSome_self chains p c2
                    · left
                      exact (hm2 p).mpr (Or.inl hp)
                  · obtain ⟨d1, d2, p, hpadj, hpne, hrec⟩ := hM x hxm
                    refine ⟨d1, d2, p, hpadj, hpne, ?_⟩
                    rcases hrec with hp | hp
                    · left; exact (hm2 p).mpr (Or.inr hp)
                    · right; exact hmono p hp
                · intro hc hhc
                  rw [hch2] at hhc
                  by_cases hlen : c2.length > 1
                  · rw [if_pos hlen] at hhc
                    rcases List.mem_append.mp hhc with hh | hh
                    · exact hC hc hh
                    · simp at hh
                      subst hh
                      have hgl : c2.getLastD i = lst := by
                        rw [hlast]
                        simp [List.getLastD_concat]
                      rw [show ((i, c2) : Nat × List Nat).2 = c2 from rfl, hgl]
                      refine ⟨?_, hstop⟩
                      rcases hlstmem with hl | hl
                      · simp at hl
                        omega
                      · exact (hprop lst hl).2.2.1
                  · rw [if_neg hlen] at hhc
                    exact hC hc hhc
              obtain ⟨hMn, hCn⟩ := hchains2P _ rfl
              exact ih _ m2 chains2 merged2 h
                (fun j hj => hlt j (List.mem_cons_of_mem i hj)) hMn hCn
        · rw [if_neg hsi] at h
          exact ih chains merged chains2 merged2 h
            (fun j hj => hlt j (List.mem_cons_of_mem i hj)) hM hC


theorem degOf_finset (nodes : List BlueprintNode) (v : Nat) :
    degOf nodes v = ∑ u ∈ Finset.range nodes.length, (adjOf nodes u).count v := by
  rfl

theorem deg_two (nodes : List BlueprintNode) (u p t : Nat)
    (hu : u < nodes.length) (hp : p < nodes.length) (hne : u ≠ p)
    (htu : t ∈ adjOf nodes u) (htp : t ∈ adjOf nodes p) :
    2 ≤ degOf nodes t := by
  rw [degOf_finset]
  have hsub : ({u, p} : Finset Nat) ⊆ Finset.range nodes.length := by
    intro x hx
    rcases Finset.mem_insert.mp hx with hx | hx
    · exact Finset.mem_range.mpr (hx ▸ hu)
    · exact Finset.mem_range.mpr ((Finset.mem_singleton.mp hx) ▸ hp)
  have hpair : ∑ x ∈ ({u, p} : Finset Nat), (adjOf nodes x).count t =
      (adjOf nodes u).count t + (adjOf nodes p).count t :=
    Finset.sum_pair hne
  have hle : ∑ x ∈ ({u, p} : Finset Nat), (adjOf nodes x).count t ≤
      ∑ x ∈ Finset.range nodes.length, (adjOf nodes x).count t :=
    Finset.sum_le_sum_of_subset hsub
  have hcu : 1 ≤ (adjOf nodes u).count t := List.count_pos_iff_mem.mpr htu
  have hcp : 1 ≤ (adjOf nodes p).count t := List.count_pos_iff_mem.mpr htp
  omega

theorem copied_target_not_merged (nodes : List BlueprintNode)
    (lookup : String → Option ExecutionMode)
    (chains : List (Nat × List Nat)) (merged : List Nat)
    (hM : MergedP nodes lookup chains merged)
    (u t : Nat) (hu : u < nodes.length) (hum : u ∉ merged)
    (huc : lookupA chains u = none) (ht : t ∈ adjOf nodes u) :
    t ∉ merged := by
  intro htm
  obtain ⟨hdeg, _, p, hadj, _, hpcase⟩ := hM t htm
  have htp : t ∈ adjOf nodes p := by rw [hadj]; exact List.mem_singleton.mpr rfl
  have hpn : p < nodes.length :=
    adjOf_src_lt nodes p (by rw [hadj]; exact List.cons_ne_nil t [])
  by_cases hup : u = p
  · subst hup
    rcases hpcase with hh | hh
    · exact hum hh
    · rw [huc] at hh
      cases hh
  · have := deg_two nodes u p t hu hpn hup ht htp
    omega

theorem fused_target_not_merged (nodes : List BlueprintNode)
    (lookup : String → Option ExecutionMode)
    (chains : List (Nat × List Nat)) (merged : List Nat)
    (hM : MergedP nodes lookup chains merged)
    (tail t : Nat) (htail : tail < nodes.length)
    (hstop : StopP nodes lookup tail) (ht : t ∈ adjOf nodes tail) :
    t ∉ merged := by
  intro htm
  obtain ⟨hdeg, hsync, p, hadj, hne, _⟩ := hM t htm
  have htp : t ∈ adjOf nodes p := by rw [hadj]; exact List.mem_singleton.mpr rfl
  have hpn : p < nodes.length :=
    adjOf_src_lt nodes p (by rw [hadj]; exact List.cons_ne_nil t [])
  by_cases hup : tail = p
  · subst hup
    exact hstop t hadj (fun he => hne he) ⟨hdeg, hsync⟩
  · have := deg_two nodes tail p t htail hpn hup ht htp
    omega


theorem buildNewGo_lookup_mono (nodes : List BlueprintNode)
    (chains : List (Nat × List Nat)) (merged : List Nat) :
    ∀ (idxs : List Nat) (acc : List BlueprintNode) (map : List (Nat × Nat)) (j : Nat),
      (lookupA map j).isSome = true →
      (lookupA (buildNewGo nodes chains merged idxs acc map).2 j).isSome = true := by
  intro idxs
  induction idxs with
  | nil =>
      intro acc map j h
      rw [buildNewGo]
      exact h
  | cons i rest ih =>
      intro acc map j h
      rw [buildNewGo]
      by_cases hmi : merged.contains i
      · rw [if_pos hmi]
        exact ih acc map j h
      · rw [if_neg hmi]
        cases hlc : lookupA chains i with
        | some chain =>
            exact ih _ _ j (lookupA_isSome_append map [(i, acc.length)] j h)
        | none =>
            exact ih _ _ j (lookupA_isSome_append map [(i, acc.length)] j h)


theorem buildNewGo_spec (nodes : List BlueprintNode)
    (chains : List (Nat × List Nat)) (merged : List Nat) :
    ∀ (idxs : List Nat) (acc : List BlueprintNode) (map : List (Nat × Nat)),
      (∀ ov ∈ map, ov.2 < acc.length) →
      (∀ ov ∈ (buildNewGo nodes chains merged idxs acc map).2,
        ov.2 < (buildNewGo nodes chains merged idxs acc map).1.length) ∧
      (∀ i ∈ idxs, i ∉ merged →
        (lookupA (buildNewGo nodes chains merged idxs acc map).2 i).isSome = true) ∧
      (∀ bn ∈ (buildNewGo nodes chains merged idxs acc map).1, bn ∈ acc ∨
        (∃ i, i ∈ idxs ∧ i ∉ merged ∧ lookupA chains i = none ∧
          bn = nodes.getD i defaultBN) ∨
        (∃ i c, i ∈ idxs ∧ i ∉ merged ∧ lookupA chains i = some c ∧
          bn = mkFusedNode nodes i c)) := by
  intro idxs
  induction idxs with
  | nil =>
      intro acc map hmap
      rw [buildNewGo]
      refine ⟨hmap, ?_, fun bn hbn => Or.inl hbn⟩
      intro i hi
      cases hi
  | cons i rest ih =>
      intro acc map hmap
      rw [buildNewGo]
      by_cases hmi : merged.contains i
      · have hmem : i ∈ merged := by simpa using hmi
        rw [if_pos hmi]
        obtain ⟨p1, p2, p3⟩ := ih acc map hmap
        refine ⟨p1, ?_, ?_⟩
        · intro j hj hjm
          rcases List.mem_cons.mp hj with hj | hj
          · exact absurd (hj ▸ hmem) hjm
          · exact p2 j hj hjm
        · intro bn hbn
          rcases p3 bn hbn with h | h | h
          · exact Or.inl h
          · obtain ⟨j, hj1, hj2, hj3, hj4⟩ := h
            exact Or.inr (Or.inl ⟨j, List.mem_cons_of_mem i hj1, hj2, hj3, hj4⟩)
          · obtain ⟨j, c, hj1, hj2, hj3, hj4⟩ := h
            exact Or.inr (Or.inr ⟨j, c, List.mem_cons_of_mem i hj1, hj2, hj3, hj4⟩)
      · have hnmem : i ∉ merged := by simpa using hmi
        rw [if_neg hmi]
        cases hlc : lookupA chains i with
        | some chain =>
            have hmap2 : ∀ ov ∈ map ++ [(i, acc.length)],
                ov.2 < (acc ++ [mkFusedNode nodes i chain]).length := by
              intro ov hov
              rcases List.mem_append.mp hov with h | h
              · have := hmap ov h
                simp only [List.length_append, List.length_cons, List.length_nil]
                omega
              · simp at h
                simp [h]
            obtain ⟨p1, p2, p3⟩ := ih (acc ++ [mkFusedNode nodes i chain])
              (map ++ [(i, acc.length)]) hmap2
            refine ⟨p1, ?_, ?_⟩
            · intro j hj hjm
              rcases List.mem_cons.mp hj with hj | hj
              · subst hj
                -- the map entry (j, acc.length) persists in the result map
                have hbase : (lookupA (map ++ [(j, acc.length)]) j).isSome = true :=
                  lookupA_isSome_self map j acc.length
                -- result map extends map ++ [(j, _)] only by later appends
                exact buildNewGo_lookup_mono nodes chains merged rest _ _ j hbase
              · exact p2 j hj hjm
            · intro bn hbn
              rcases p3 bn hbn with h | h | h
              · rcases List.mem_append.mp h with h | h
                · exact Or.inl h
                · simp at h
                  exact Or.inr (Or.inr ⟨i, chain, List.mem_cons_self i rest, hnmem,
                    hlc, h⟩)
              · obtain ⟨j, hj1, hj2, hj3, hj4⟩ := h
                exact Or.inr (Or.inl ⟨j, List.mem_cons_of_mem i hj1, hj2, hj3, hj4⟩)
              · obtain ⟨j, c, hj1, hj2, hj3, hj4⟩ := h
                exact Or.inr (Or.inr ⟨j, c, List.mem_cons_of_mem i hj1, hj2, hj3, hj4⟩)
        | none =>
            have hmap2 : ∀ ov ∈ map ++ [(i, acc.length)],
                ov.2 < (acc ++ [nodes.getD i defaultBN]).length := by
              intro ov hov
              rcases List.mem_append.mp hov with h | h
              · have := hmap ov h
                simp only [List.length_append, List.length_cons, List.length_nil]
                omega
              · simp at h
                simp [h]
            obtain ⟨p1, p2, p3⟩ := ih (acc ++ [nodes.getD i defaultBN])
              (map ++ [(i, acc.length)]) hmap2
            refine ⟨p1, ?_, ?_⟩
            · intro j hj hjm
              rcases List.mem_cons.mp hj with hj | hj
              · subst hj
                have hbase : (lookupA (map ++ [(j, acc.length)]) j).isSome = true :=
                  lookupA_isSome_self map j acc.length
                exact buildNewGo_lookup_mono nodes chains merged rest _ _ j hbase
              · exact p2 j hj hjm
            · intro bn hbn
              rcases p3 bn hbn with h | h | h
              · rcases List.mem_append.mp h with h | h
                · exact Or.inl h
                · rw [List.mem_singleton] at h
                  exact Or.inr (Or.inl ⟨i, List.mem_cons_self i rest, hnmem, hlc, h⟩)
              · obtain ⟨j, hj1, hj2, hj3, hj4⟩ := h
                exact Or.inr (Or.inl ⟨j, List.mem_cons_of_mem i hj1, hj2, hj3, hj4⟩)
              · obtain ⟨j, c, hj1, hj2, hj3, hj4⟩ := h
                exact Or.inr (Or.inr ⟨j, c, List.mem_cons_of_mem i hj1, hj2, hj3, hj4⟩)


theorem remap_params_plain (map : List (Nat × Nat)) (bn : BlueprintNode)
    (key : String) (hk : key = "next" ∨ key = "join_target" ∨
      key = "else_next" ∨ key = "body") :
    (remap_node_targets map bn).params.getKey key =
      (bn.params.getKey key).map (remap_val map) := by
  simp only [remap_node_targets]
  rcases hk with hk | hk | hk | hk <;> subst hk
  · rw [getKey_modifyKey_other _ "body" _ "next" (by decide),
      getKey_modifyKey_other _ "else_next" _ "next" (by decide),
      getKey_modifyKey_other _ "branches" _ "next" (by decide),
      getKey_modifyKey_other _ "join_target" _ "next" (by decide),
      getKey_modifyKey_other _ "targets" _ "next" (by decide),
      getKey_modifyKey_same]
  · rw [getKey_modifyKey_other _ "body" _ "join_target" (by decide),
      getKey_modifyKey_other _ "else_next" _ "join_target" (by decide),
      getKey_modifyKey_other _ "branches" _ "join_target" (by decide),
      getKey_modifyKey_same,
      getKey_modifyKey_other _ "targets" _ "join_target" (by decide),
      getKey_modifyKey_other _ "next" _ "join_target" (by decide)]
  · rw [getKey_modifyKey_other _ "body" _ "else_next" (by decide),
      getKey_modifyKey_same,
      getKey_modifyKey_other _ "branches" _ "else_next" (by decide),
      getKey_modifyKey_other _ "join_target" _ "else_next" (by decide),
      getKey_modifyKey_other _ "targets" _ "else_next" (by decide),
      getKey_modifyKey_other _ "next" _ "else_next" (by decide)]
  · rw [getKey_modifyKey_same,
      getKey_modifyKey_other _ "else_next" _ "body" (by decide),
      getKey_modifyKey_other _ "branches" _ "body" (by decide),
      getKey_modifyKey_other _ "join_target" _ "body" (by decide),
      getKey_modifyKey_other _ "targets" _ "body" (by decide),
      getKey_modifyKey_other _ "next" _ "body" (by decide)]

theorem remap_params_targets (map : List (Nat × Nat)) (bn : BlueprintNode) :
    (remap_node_targets map bn).params.getKey "targets" =
      (bn.params.getKey "targets").map (remapArr map) := by
  simp only [remap_node_targets]
  rw [getKey_modifyKey_other _ "body" _ "targets" (by decide),
    getKey_modifyKey_other _ "else_next" _ "targets" (by decide),
    getKey_modifyKey_other _ "branches" _ "targets" (by decide),
    getKey_modifyKey_other _ "join_target" _ "targets" (by decide),
    getKey_modifyKey_same,
    getKey_modifyKey_other _ "next" _ "targets" (by decide)]

theorem remap_params_branches (map : List (Nat × Nat)) (bn : BlueprintNode) :
    (remap_node_targets map bn).params.getKey "branches" =
      (bn.params.getKey "branches").map (remapBranches map) := by
  simp only [remap_node_targets]
  rw [getKey_modifyKey_other _ "body" _ "branches" (by decide),
    getKey_modifyKey_other _ "else_next" _ "branches" (by decide),
    getKey_modifyKey_same,
    getKey_modifyKey_other _ "join_target" _ "branches" (by decide),
    getKey_modifyKey_other _ "targets" _ "branches" (by decide),
    getKey_modifyKey_other _ "next" _ "branches" (by decide)]

theorem mem_extract_next (bn : BlueprintNode) (t : Nat)
    (h : (bn.params.getKey "next").bind Json.asU64 = some t) :
    t ∈ extract_targets bn := by
  unfold extract_targets keyU64
  rw [h]
  simp

theorem mem_extract_join_target (bn : BlueprintNode) (t : Nat)
    (h : (bn.params.getKey "join_target").bind Json.asU64 = some t) :
    t ∈ extract_targets bn := by
  unfold extract_targets keyU64
  rw [h]
  simp

theorem mem_extract_else_next (bn : BlueprintNode) (t : Nat)
    (h : (bn.params.getKey "else_next").bind Json.asU64 = some t) :
    t ∈ extract_targets bn := by
  unfold extract_targets keyU64
  rw [h]
  simp

theorem mem_extract_body (bn : BlueprintNode) (t : Nat)
    (h : (bn.params.getKey "body").bind Json.asU64 = some t) :
    t ∈ extract_targets bn := by
  unfold extract_targets keyU64
  rw [h]
  simp

theorem mem_extract_targetsArr (bn : BlueprintNode) (ts : List Json) (t : Nat)
    (h : (bn.params.getKey "targets").bind Json.asArr = some ts)
    (ht : t ∈ ts.filterMap Json.asU64) :
    t ∈ extract_targets bn := by
  unfold extract_targets keyU64
  rw [h]
  simp [ht]

theorem mem_extract_branchesArr (bn : BlueprintNode) (bs : List Json) (b : Json) (t : Nat)
    (h : (bn.params.getKey "branches").bind Json.asArr = some bs)
    (hb : b ∈ bs) (ht : (b.getKey "target").bind Json.asU64 = some t) :
    t ∈ extract_targets bn := by
  unfold extract_targets keyU64
  rw [h]
  have : t ∈ bs.filterMap (fun b => (b.getKey "target").bind Json.asU64) :=
    List.mem_filterMap.mpr ⟨b, hb, ht⟩
  simp [this]

theorem remap_val_cases (map : List (Nat × Nat)) (j : Json) :
    (Json.asU64 j = none ∧ remap_val map j = j) ∨
    (∃ t, Json.asU64 j = some t ∧
      ((lookupA map t = none ∧ remap_val map j = j) ∨
       (∃ w, lookupA map t = some w ∧ remap_val map j = Json.ofNat w))) := by
  unfold remap_val
  cases hj : Json.asU64 j with
  | none => exact Or.inl ⟨rfl, rfl⟩
  | some t =>
      refine Or.inr ⟨t, rfl, ?_⟩
      show (lookupA map t = none ∧ (match lookupA map t with
          | some newIdx => Json.ofNat newIdx
          | none => j) = j) ∨
        (∃ w, lookupA map t = some w ∧ (match lookupA map t with
          | some newIdx => Json.ofNat newIdx
          | none => j) = Json.ofNat w)
      cases hl : lookupA map t with
      | none => exact Or.inl ⟨rfl, rfl⟩
      | some w => exact Or.inr ⟨w, rfl, rfl⟩

theorem remap_val_bound (map : List (Nat × Nat)) (L : Nat) (j : Json) (v : Nat)
    (hv : Json.asU64 (remap_val map j) = some v)
    (h : ∀ t, Json.asU64 j = some t → ∃ w, lookupA map t = some w ∧ w < L) :
    v < L := by
  rcases remap_val_cases map j with ⟨hn, hr⟩ | ⟨t, ht, hrest⟩
  · rw [hr, hn] at hv
    cases hv
  · obtain ⟨w, hw, hwL⟩ := h t ht
    rcases hrest with ⟨hnone, _⟩ | ⟨w2, hw2, hr⟩
    · rw [hnone] at hw
      cases hw
    · rw [hr, asU64_ofNat] at hv
      injection hv with hv
      rw [hw] at hw2
      injection hw2 with hw2
      omega

theorem remap_node_targets_valid (map : List (Nat × Nat)) (L : Nat) (bn : BlueprintNode)
    (h : ∀ t ∈ extract_targets bn, ∃ v, lookupA map t = some v ∧ v < L) :
    ∀ t2 ∈ extract_targets (remap_node_targets map bn), t2 < L := by
  apply extract_targets_bound _ L
  · intro v hv
    rw [remap_params_plain map bn "next" (Or.inl rfl)] at hv
    cases hn : bn.params.getKey "next" with
    | none => rw [hn] at hv; cases hv
    | some j =>
        rw [hn] at hv
        refine remap_val_bound map L j v hv (fun t ht => ?_)
        exact h t (mem_extract_next bn t (by rw [hn]; exact ht))
  · intro ts2 hts2 v hv
    rw [remap_params_targets map bn] at hts2
    cases hn : bn.params.getKey "targets" with
    | none => rw [hn] at hts2; cases hts2
    | some j =>
        rw [hn] at hts2
        cases j with
        | arr xs =>
            rw [show (Option.map (remapArr map) (some (Json.arr xs))).bind Json.asArr =
              some (xs.map (remap_val map)) from rfl] at hts2
            injection hts2 with hts2
            subst hts2
            obtain ⟨x, hx, hxv⟩ := List.mem_filterMap.mp hv
            obtain ⟨x0, hx0, hx0e⟩ := List.mem_map.mp hx
            subst hx0e
            refine remap_val_bound map L x0 v hxv (fun t ht => ?_)
            refine h t (mem_extract_targetsArr bn xs t (by rw [hn]; rfl) ?_)
            exact List.mem_filterMap.mpr ⟨x0, hx0, ht⟩
        | null =>
            rw [show (Option.map (remapArr map) (some Json.null)).bind Json.asArr =
              none from rfl] at hts2
            cases hts2
        | bool b =>
            rw [show (Option.map (remapArr map) (some (Json.bool b))).bind Json.asArr =
              none from rfl] at hts2
            cases hts2
        | num n =>
            rw [show (Option.map (remapArr map) (some (Json.num n))).bind Json.asArr =
              none from rfl] at hts2
            cases hts2
        | str s2 =>
            rw [show (Option.map (remapArr map) (some (Json.str s2))).bind Json.asArr =
              none from rfl] at hts2
            cases hts2
        | obj fs =>
            rw [show (Option.map (remapArr map) (some (Json.obj fs))).bind Json.asArr =
              none from rfl] at hts2
            cases hts2
  · intro v hv
    rw [remap_params_plain map bn "join_target" (Or.inr (Or.inl rfl))] at hv
    cases hn : bn.params.getKey "join_target" with
    | none => rw [hn] at hv; cases hv
    | some j =>
        rw [hn] at hv
        refine remap_val_bound map L j v hv (fun t ht => ?_)
        exact h t (mem_extract_join_target bn t (by rw [hn]; exact ht))
  · intro bs2 hbs2 b hb v hv
    rw [remap_params_branches map bn] at hbs2
    cases hn : bn.params.getKey "branches" with
    | none => rw [hn] at hbs2; cases hbs2
    | some j =>
        rw [hn] at hbs2
        cases j with
        | arr bs =>
            rw [show (Option.map (remapBranches map) (some (Json.arr bs))).bind Json.asArr =
              some (bs.map (fun b => b.modifyKey "target" (remap_val map))) from rfl] at hbs2
            injection hbs2 with hbs2
            subst hbs2
            obtain ⟨b0, hb0, hb0e⟩ := List.mem_map.mp hb
            subst hb0e
            rw [getKey_modifyKey_same] at hv
            cases hg : b0.getKey "target" with
            | none => rw [hg] at hv; cases hv
            | some j2 =>
                rw [hg] at hv
                refine remap_val_bound map L j2 v hv (fun t ht => ?_)
                refine h t (mem_extract_branchesArr bn bs b0 t (by rw [hn]; rfl) hb0 ?_)
                rw [hg]
                exact ht
        | null =>
            rw [show (Option.map (remapBranches map) (some Json.null)).bind Json.asArr =
              none from rfl] at hbs2
            cases hbs2
        | bool bb =>
            rw [show (Option.map (remapBranches map) (some (Json.bool bb))).bind Json.asArr =
              none from rfl] at hbs2
            cases hbs2
        | num n =>
            rw [show (Option.map (remapBranches map) (some (Json.num n))).bind Json.asArr =
              none from rfl] at hbs2
            cases hbs2
        | str s2 =>
            rw [show (Option.map (remapBranches map) (some (Json.str s2))).bind Json.asArr =
              none from rfl] at hbs2
            cases hbs2
        | obj fs =>
            rw [show (Option.map (remapBranches map) (some (Json.obj fs))).bind Json.asArr =
              none from rfl] at hbs2
            cases hbs2
  · intro v hv
    rw [remap_params_plain map bn "else_next" (Or.inr (Or.inr (Or.inl rfl)))] at hv
    cases hn : bn.params.getKey "else_next" with
    | none => rw [hn] at hv; cases hv
    | some j =>
        rw [hn] at hv
        refine remap_val_bound map L j v hv (fun t ht => ?_)
        exact h t (mem_extract_else_next bn t (by rw [hn]; exact ht))
  · intro v hv
    rw [remap_params_plain map bn "body" (Or.inr (Or.inr (Or.inr rfl)))] at hv
    cases hn : bn.params.getKey "body" with
    | none => rw [hn] at hv; cases hv
    | some j =>
        rw [hn] at hv
        refine remap_val_bound map L j v hv (fun t ht => ?_)
        exact h t (mem_extract_body bn t (by rw [hn]; exact ht))


theorem fused_obj_extract (ops nv : Json) (t : Nat)
    (h : t ∈ extract_targets ⟨"fused", .obj [("ops", ops), ("next", nv)]⟩) :
    Json.asU64 nv = some t := by
  unfold extract_targets keyU64 at h
  rw [show (⟨"fused", Json.obj [("ops", ops), ("next", nv)]⟩ : BlueprintNode).params =
    Json.obj [("ops", ops), ("next", nv)] from rfl] at h
  rw [show (Json.obj [("ops", ops), ("next", nv)]).getKey "next" = some nv from rfl] at h
  rw [show (Json.obj [("ops", ops), ("next", nv)]).getKey "targets" = none from rfl] at h
  rw [show (Json.obj [("ops", ops), ("next", nv)]).getKey "join_target" = none from rfl] at h
  rw [show (Json.obj [("ops", ops), ("next", nv)]).getKey "branches" = none from rfl] at h
  rw [show (Json.obj [("ops", ops), ("next", nv)]).getKey "else_next" = none from rfl] at h
  rw [show (Json.obj [("ops", ops), ("next", nv)]).getKey "body" = none from rfl] at h
  rw [show (some nv).bind Json.asU64 = Json.asU64 nv from rfl] at h
  cases hn : Json.asU64 nv with
  | none => rw [hn] at h; simp at h
  | some w =>
      rw [hn] at h
      simp at h
      rw [h]

theorem mkFusedNode_target (nodes : List BlueprintNode) (i : Nat) (c : List Nat) (t : Nat)
    (h : t ∈ extract_targets (mkFusedNode nodes i c)) :
    ((nodes.getD (c.getLastD i) defaultBN).params.getKey "next").bind Json.asU64 =
      some t := by
  have h2 := fused_obj_extract _ _ t h
  cases hg : ((nodes.getD (c.getLastD i) defaultBN).params.getKey "next") with
  | none =>
      rw [show ((nodes.getD (c.getLastD i) defaultBN).params.getKey "next").getD
        Json.null = Json.null by rw [hg]; rfl] at h2
      cases h2
  | some j =>
      rw [show ((nodes.getD (c.getLastD i) defaultBN).params.getKey "next").getD
        Json.null = j by rw [hg]; rfl] at h2
      exact h2

theorem getD_mem_of_lt {a : Type} (l : List a) (i : Nat) (d : a) (h : i < l.length) :
    l.getD i d ∈ l := by
  cases hq : l.get? i with
  | none =>
      rw [List.get?_eq_none] at hq
      omega
  | some x =>
      have : l.getD i d = x := by
        unfold List.getD
        rw [hq]
        rfl
      rw [this]
      exact List.get?_mem hq

theorem get?_of_lt {a : Type} (l : List a) (i : Nat) (d : a) (h : i < l.length) :
    l.get? i = some (l.getD i d) := by
  cases hq : l.get? i with
  | none =>
      rw [List.get?_eq_none] at hq
      omega
  | some x =>
      have : l.getD i d = x := by
        unfold List.getD
        rw [hq]
        rfl
      rw [this]

theorem mem_adjOf_of_extract (nodes : List BlueprintNode) (i t : Nat)
    (hi : i < nodes.length)
    (ht : t ∈ extract_targets (nodes.getD i defaultBN)) (htn : t < nodes.length) :
    t ∈ adjOf nodes i := by
  unfold adjOf
  rw [get?_of_lt nodes i defaultBN hi]
  exact List.mem_filter.mpr ⟨ht, by simpa using htn⟩

/-- Claim C5 optimizer half: if every target of the input blueprint is
valid and the mode lookup does not classify the node at `start_index` as
sync, then the optimized blueprint (when the chain loop terminates)
satisfies the target invariant as well. -/
theorem optimize_valid (lookup : String → Option ExecutionMode) (fuel : Nat)
    (bp bp2 : Blueprint) (hv : validB bp = true)
    (hss : is_sync lookup (bp.nodes.getD bp.start_index defaultBN) = false)
    (hopt : optimize lookup fuel bp = some bp2) : validB bp2 = true := by
  unfold optimize at hopt
  cases hsc : scanChains bp.nodes lookup fuel with
  | none => rw [hsc] at hopt; cases hopt
  | some cm =>
      obtain ⟨chains, merged⟩ := cm
      rw [hsc] at hopt
      injection hopt with hopt
      subst hopt
      unfold validB at hv
      rw [Bool.and_eq_true] at hv
      have hval : ∀ bn ∈ bp.nodes, ∀ t ∈ extract_targets bn, t < bp.nodes.length := by
        intro bn hbn t ht
        have := List.all_eq_true.mp hv.1 bn hbn
        unfold validNode at this
        simpa using List.all_eq_true.mp this t ht
      have hstart_lt : bp.start_index < bp.nodes.length := by simpa using hv.2
      unfold scanChains at hsc
      obtain ⟨hM, hC⟩ := scanChainsGo_spec bp.nodes lookup fuel
        (List.range bp.nodes.length) [] [] chains merged hsc
        (fun i hi => List.mem_range.mp hi)
        (fun m hm => absurd hm (List.not_mem_nil m))
        (fun hc hhc => absurd hhc (List.not_mem_nil hc))
      obtain ⟨P1, P2, P3⟩ := buildNewGo_spec bp.nodes chains merged
        (List.range bp.nodes.length) [] [] (fun ov hov => absurd hov (List.not_mem_nil ov))
      have hmapfact : ∀ t, t < bp.nodes.length → t ∉ merged →
          ∃ v, lookupA (buildNewGo bp.nodes chains merged
            (List.range bp.nodes.length) [] []).2 t = some v ∧
            v < (buildNewGo bp.nodes chains merged
              (List.range bp.nodes.length) [] []).1.length := by
        intro t htn htm
        have hsome := P2 t (List.mem_range.mpr htn) htm
        cases hl : lookupA (buildNewGo bp.nodes chains merged
            (List.range bp.nodes.length) [] []).2 t with
        | none => rw [hl] at hsome; cases hsome
        | some v =>
            refine ⟨v, rfl, ?_⟩
            obtain ⟨kv, hkv, _, hkv2⟩ := lookupA_mem _ t v hl
            have := P1 kv hkv
            omega
      unfold validB
      rw [Bool.and_eq_true]
      constructor
      · rw [List.all_eq_true]
        intro bn2 hbn2
        simp only [List.mem_map] at hbn2
        obtain ⟨bn, hbn, hbn2e⟩ := hbn2
        subst hbn2e
        unfold validNode
        rw [List.all_eq_true]
        intro t2 ht2
        have hlen : ((buildNewGo bp.nodes chains merged
            (List.range bp.nodes.length) [] []).1.map
            (remap_node_targets (buildNewGo bp.nodes chains merged
              (List.range bp.nodes.length) [] []).2)).length =
            (buildNewGo bp.nodes chains merged
              (List.range bp.nodes.length) [] []).1.length := by
          simp
        rw [hlen]
        have hbound : ∀ t ∈ extract_targets bn,
            ∃ v, lookupA (buildNewGo bp.nodes chains merged
              (List.range bp.nodes.length) [] []).2 t = some v ∧
              v < (buildNewGo bp.nodes chains merged
                (List.range bp.nodes.length) [] []).1.length := by
          intro t ht
          rcases P3 bn hbn with hcase | hcase | hcase
          · exact absurd hcase (List.not_mem_nil bn)
          · obtain ⟨i, hi1, hi2, hi3, hi4⟩ := hcase
            subst hi4
            have hin : i < bp.nodes.length := List.mem_range.mp hi1
            have htn : t < bp.nodes.length :=
              hval _ (getD_mem_of_lt bp.nodes i defaultBN hin) t ht
            have hadj : t ∈ adjOf bp.nodes i :=
              mem_adjOf_of_extract bp.nodes i t hin ht htn
            have := copied_target_not_merged bp.nodes lookup chains merged hM
              i t hin hi2 hi3 hadj
            exact hmapfact t htn this
          · obtain ⟨i, c, hi1, hi2, hi3, hi4⟩ := hcase
            subst hi4
            obtain ⟨kv, hkv, hkvk, hkvv⟩ := lookupA_mem chains i c hi3
            have hcp := hC kv hkv
            rw [show kv = (i, c) from Prod.ext hkvk hkvv] at hcp
            have htail_lt : c.getLastD i < bp.nodes.length := hcp.1
            have hstop : StopP bp.nodes lookup (c.getLastD i) := hcp.2
            have htx := mkFusedNode_target bp.nodes i c t ht
            have htex : t ∈ extract_targets (bp.nodes.getD (c.getLastD i) defaultBN) :=
              mem_extract_next _ t htx
            have htn : t < bp.nodes.length :=
              hval _ (getD_mem_of_lt bp.nodes (c.getLastD i) defaultBN htail_lt) t htex
            have hadj : t ∈ adjOf bp.nodes (c.getLastD i) :=
              mem_adjOf_of_extract bp.nodes (c.getLastD i) t htail_lt htex htn
            have := fused_target_not_merged bp.nodes lookup chains merged hM
              (c.getLastD i) t htail_lt hstop hadj
            exact hmapfact t htn this
        exact decide_eq_true (remap_node_targets_valid _ _ bn hbound t2 ht2)
      · have hsm : bp.start_index ∉ merged := by
          intro hmem
          obtain ⟨_, hsync, _⟩ := hM bp.start_index hmem
          rw [hss] at hsync
          cases hsync
        obtain ⟨v, hvle, hvlt⟩ := hmapfact bp.start_index hstart_lt hsm
        rw [hvle]
        simpa using hvlt


/-- The sync/async mode lookup of the builtin registry
(`actions/builtin.rs`): `log` and `assign` are registered `Sync`; other
kinds are unregistered. -/
def builtinSyncLookup : String → Option ExecutionMode :=
  fun k => if k = "log" || k = "assign" then some .sync else none

/-- Claim C5 (amended): for every workflow accepted by `compile` in which
no `Function` node's user parameters use the reserved control-flow keys
(`next`, `targets`, `join_target`, `branches`, `else_next`, `body` —
user parameters are merged into the blueprint unchecked, see the
counterexample), every control-flow target and the start index of the
compiled blueprint are valid indices; and `Optimizer::optimize`, whenever
it returns a blueprint and the mode lookup does not classify the node at
`start_index` as sync (an adversarial lookup that does can strand
`start_index`, see the counterexample), preserves the invariant. -/
theorem c5_valid_amended (wf : Workflow) (bp : Blueprint)
    (hc : compile wf = .ok bp)
    (hclean : ∀ n ∈ (expand wf).nodes, funcClean n = true) :
    validB bp = true ∧
    (∀ (lookup : String → Option ExecutionMode) (fuel : Nat) (bp2 : Blueprint),
      is_sync lookup (bp.nodes.getD bp.start_index defaultBN) = false →
      optimize lookup fuel bp = some bp2 → validB bp2 = true) := by
  have h1 := compile_valid wf bp hclean hc
  exact ⟨h1, fun lookup fuel bp2 hss hopt =>
    optimize_valid lookup fuel bp bp2 h1 hss hopt⟩

/-- A clean linear workflow: start, a `Function` node of kind `assign`
with unreserved user parameters, and an end node. -/
def c5wfW : Workflow :=
  { id := "w5w", name := "", vars := [],
    nodes := [Node.mk "s" .start,
      Node.mk "f" (.function "assign" [("value", Json.num 5)] (some "a")),
      Node.mk "e" (.endNode "")],
    edges := [plainEdge "s" "f", plainEdge "f" "e"] }

/-- The blueprint compiled from `c5wfW`. -/
def c5bpW : Blueprint :=
  (compile c5wfW).toOption.getD ⟨"", "", [], 0⟩

/-- The optimized form of `c5bpW` under the builtin mode lookup. -/
def c5bp2W : Blueprint :=
  (optimize builtinSyncLookup 10 c5bpW).getD ⟨"", "", [], 0⟩

/-- Claim C5, witness: the amended theorem applied to `c5wfW`, giving a
valid compiled blueprint and a valid optimized blueprint. -/
theorem c5_valid_amended_witness :
    (∀ n ∈ (expand c5wfW).nodes, funcClean n = true) ∧
    is_sync builtinSyncLookup (c5bpW.nodes.getD c5bpW.start_index defaultBN) = false ∧
    validB c5bpW = true ∧ validB c5bp2W = true :=
  ⟨by decide, by decide,
   (c5_valid_amended c5wfW c5bpW rfl (by decide)).1,
   (c5_valid_amended c5wfW c5bpW rfl (by decide)).2 builtinSyncLookup 10 c5bp2W
     (by decide) rfl⟩



/-! Runtime state, traces and syscalls (`runtime/`, `nodes/`, `actions/`). -/

/-- Per-instance variable store (`InMemoryStateStore`'s variable map for
one instance), as an association list. -/
def State : Type := List (String × Json)

/-- Generic insert-or-replace on an association list (map insert). -/
def setA {q a : Type} [BEq q] (l : List (q × a)) (k : q) (v : a) : List (q × a) :=
  if l.any (fun kv => kv.1 == k) then
    l.map (fun kv => if kv.1 == k then (kv.1, v) else kv)
  else
    l ++ [(k, v)]

/-- Remove a key from an association list. -/
def removeA {q a : Type} [BEq q] (l : List (q × a)) (k : q) : List (q × a) :=
  l.filter (fun kv => !(kv.1 == k))

/-- `get_var`. -/
def getVar (s : State) (k : String) : Option Json := lookupA s k

/-- `set_var` (insert-or-replace). -/
def setVar (s : State) (k : String) (v : Json) : State := setA s k v

/-- Observable state-store events of a node execution: single-variable
reads and writes, and whole-state snapshots (`get_all_vars`). -/
inductive Ev where
  | read (k : String) (res : Option Json) : Ev
  | write (k : String) (v : Json) : Ev
  | readAll (snapshot : List (String × Json)) : Ev

/-- Buffered syscalls (`runtime/syscall.rs`). -/
inductive Sys where
  | jump (target : Nat) : Sys
  | fork (targets : List Nat) : Sys
  | wait : Sys
  | terminate : Sys

/-- A task/token (`runtime/task.rs`); UUIDs are modelled as naturals. -/
structure Task where
  instance_id : Nat
  workflow_id : String
  token_id : Nat
  node_index : Nat
  flow_id : Nat

/-- The follow-up tasks the engine produces for one syscall
(`EngineSyscall` in `runtime/engine.rs`): `jump` keeps the token and
moves it, `fork` mints fresh token ids (abstracted as a supply) per
branch, `wait` and `terminate` produce nothing. -/
def sysTasks (t : Task) (freshSupply : Nat → Nat) (s : Sys) : List Task :=
  match s with
  | .jump target => [{ t with node_index := target }]
  | .fork targets =>
      targets.mapIdx (fun i tg => { t with token_id := freshSupply i, node_index := tg })
  | .wait => []
  | .terminate => []

/-- Abstract expression evaluator (the `evalexpr` call in
`AssignAction::execute`): from a snapshot of the variables and a
right-hand-side text to an optional Json result. `none` covers both
evaluation errors and non-convertible results, which the source treats
identically except for logging. -/
def EvalFn : Type := List (String × Json) → String → Option Json

/-- Worker loop of the first-`=` split (`str::split_once('=')` in
`AssignAction`). -/
def splitFirstEqGo : List Char → List Char → Option (List Char × List Char)
  | [], _ => none
  | c :: rest, acc =>
      if c = '=' then some (acc.reverse, rest) else splitFirstEqGo rest (c :: acc)

/-- Split a string at its first `=` into target text and expression text. -/
def splitFirstEq (s : String) : Option (String × String) :=
  match splitFirstEqGo s.data [] with
  | some (l, r) => some (⟨l⟩, ⟨r⟩)
  | none => none

/-- `AssignAction::execute` (`actions/builtin.rs`): apply the
`assignments` list, then evaluate the optional `expression` (writing to
the left-hand variable when the expression has an `=`, otherwise
returning the evaluated value when no `value` param exists), then return
the `value` parameter or null. -/
def assignExec (ev : EvalFn) (params : Json) (s : State) : State × List Ev × Json :=
  let step1 : State × List Ev :=
    match (params.getKey "assignments").bind Json.asArr with
    | some items =>
        items.foldl (fun acc item =>
          match (item.getKey "key").bind Json.asStr, item.getKey "value" with
          | some k, some v => (setVar acc.1 k v, acc.2 ++ [Ev.write k v])
          | _, _ => acc) (s, [])
    | none => (s, [])
  match (params.getKey "expression").bind Json.asStr with
  | some expr =>
      let pr : Option String × String :=
        match splitFirstEq expr with
        | some (l, r) => (some l.trim, r.trim)
        | none => (none, expr)
      let evs2 := step1.2 ++ [Ev.readAll step1.1]
      match ev step1.1 pr.2 with
      | some jv =>
          match pr.1 with
          | some nm =>
              (setVar step1.1 nm jv, evs2 ++ [Ev.write nm jv],
               (params.getKey "value").getD Json.null)
          | none =>
              match params.getKey "value" with
              | none => (step1.1, evs2, jv)
              | some v => (step1.1, evs2, v)
      | none => (step1.1, evs2, (params.getKey "value").getD Json.null)
  | none => (step1.1, step1.2, (params.getKey "value").getD Json.null)

/-- Dispatch of the registered sync handlers by kind: `LogAction` leaves
the store untouched and returns null, `AssignAction` as above; other
kinds have no sync handler here. -/
def handlerExec (ev : EvalFn) (kind : String) (params : Json) (s : State) :
    Option (State × List Ev × Json) :=
  if kind = "log" then some (s, [], Json.null)
  else if kind = "assign" then some (assignExec ev params s)
  else none

/-- The variable name of a `$`-brace reference: strings that start with
`$` and an opening brace and end with a closing brace (the
`starts_with`/`ends_with` checks of `ActionNode::execute`), with the
name the characters in between. -/
def refName (sv : String) : Option String :=
  match sv.data with
  | '$' :: c :: rest =>
      if c = '\x7b' then
        match rest.getLast? with
        | some d => if d = '\x7d' then some ⟨rest.dropLast⟩ else none
        | none => none
      else none
  | _ => none

/-- Resolution of one parameter field by `ActionNode::execute`: a string
value of the dollar-brace reference shape is looked up (emitting a read)
and replaced when the variable exists. -/
def resolveField (s : State) (kv : String × Json) : (String × Json) × List Ev :=
  match kv.2 with
  | .str sv =>
      match refName sv with
      | some name =>
          ((kv.1, (getVar s name).getD kv.2), [Ev.read name (getVar s name)])
      | none => ((kv.1, kv.2), [])
  | _ => ((kv.1, kv.2), [])

/-- The parameter-resolution loop of `ActionNode::execute` over the
top-level fields of the parameter object. -/
def resolveParams (s : State) (params : Json) : Json × List Ev :=
  match params with
  | .obj fields =>
      (.obj (fields.map (fun kv => (resolveField s kv).1)),
       fields.flatMap (fun kv => (resolveField s kv).2))
  | j => (j, [])

/-- `ActionNode::execute` (`nodes/action.rs`): resolve dollar-brace
parameter references, run the handler, write the `output` variable, then
jump to the prepared `next`. -/
def runAction (ev : EvalFn) (kind : String) (params : Json) (s : State) :
    Option (State × List Ev × List Sys) :=
  match handlerExec ev kind (resolveParams s params).1 s with
  | none => none
  | some (s1, evs2, result) =>
      match (params.getKey "output").bind Json.asStr with
      | some o =>
          some (setVar s1 o result,
            (resolveParams s params).2 ++ evs2 ++ [Ev.write o result],
            match (params.getKey "next").bind Json.asU64 with
            | some t => [Sys.jump t]
            | none => [])
      | none =>
          some (s1, (resolveParams s params).2 ++ evs2,
            match (params.getKey "next").bind Json.asU64 with
            | some t => [Sys.jump t]
            | none => [])

/-- Engine-driven sequential execution of a chain of action nodes, one
task at a time, threading the store; the returned syscalls are the final
node's (each intermediate `jump` is consumed by dispatching the next
chain member). -/
def runActionChain (ev : EvalFn) : List (String × Json) → State →
    Option (State × List Ev × List Sys)
  | [], s => some (s, [], [])
  | (kind, params) :: rest, s =>
      match runAction ev kind params s with
      | none => none
      | some (s1, evs, sys) =>
          match runActionChain ev rest s1 with
          | none => none
          | some (s2, evs2, sys2) =>
              some (s2, evs ++ evs2, if rest.isEmpty then sys else sys2)

/-- `FusedNodeDefinition::prepare` for one op record: requires a known
fusible kind (only `log` and `assign` are registered) and takes the raw
op params. -/
def fusedOpOf (j : Json) : Option (String × Json) :=
  match (j.getKey "kind").bind Json.asStr with
  | none => none
  | some kind =>
      if kind = "log" || kind = "assign" then
        some (kind, (j.getKey "params").getD Json.null)
      else none

/-- Option-monadic map, short-circuiting at the first failure. -/
def mapMO {a b : Type} (f : a → Option b) : List a → Option (List b)
  | [] => some []
  | x :: xs =>
      match f x with
      | none => none
      | some y =>
          match mapMO f xs with
          | none => none
          | some ys => some (y :: ys)

/-- The op loop of `FusedNode::execute`: each sub-operation runs its
handler on the raw params — without dollar-brace resolution — and writes
its `output`. -/
def runFusedOps (ev : EvalFn) : List (String × Json) → State →
    Option (State × List Ev)
  | [], s => some (s, [])
  | (kind, params) :: rest, s =>
      match handlerExec ev kind params s with
      | none => none
      | some (s1, evs1, result) =>
          match (params.getKey "output").bind Json.asStr with
          | some o =>
              match runFusedOps ev rest (setVar s1 o result) with
              | none => none
              | some (s3, evs3) => some (s3, evs1 ++ [Ev.write o result] ++ evs3)
          | none =>
              match runFusedOps ev rest s1 with
              | none => none
              | some (s3, evs3) => some (s3, evs1 ++ evs3)

/-- A `FusedNode` prepared from a fused blueprint node's params and then
executed: parse `ops`, run them sequentially, then jump to `next`. -/
def runFusedFromParams (ev : EvalFn) (params : Json) (s : State) :
    Option (State × List Ev × List Sys) :=
  match (params.getKey "ops").bind Json.asArr with
  | none => none
  | some opsJson =>
      match mapMO fusedOpOf opsJson with
      | none => none
      | some ops =>
          match runFusedOps ev ops s with
          | none => none
          | some (s2, evs) =>
              some (s2, evs,
                match (params.getKey "next").bind Json.asU64 with
                | some t => [Sys.jump t]
                | none => [])

/-- The fused params the optimizer builds for an op chain: the `ops`
records plus the tail op's `next`. -/
def mkFusedParams (ops : List (String × Json)) : Json :=
  .obj [("ops", .arr (ops.map (fun op =>
          Json.obj [("kind", .str op.1), ("params", op.2)]))),
        ("next", ((ops.getLast?.map (fun op => op.2)).bind
          (fun p => p.getKey "next")).getD .null)]

/-- A parameter object none of whose top-level string values has the
dollar-brace reference shape. -/
def noPlaceholders (params : Json) : Bool :=
  match params with
  | .obj fields => fields.all (fun kv =>
      match kv.2 with
      | .str sv => (refName sv).isNone
      | _ => true)
  | _ => true


/-! Join counters (`nodes/flow.rs` and the two state stores). -/

/-- `JoinNode::execute`: the inline per-context counter (`pending_joins`)
keyed by node index. `or_insert(expect_count)`, then `fetch_sub(1)`
returning the previous value; the entry is removed and `jump(next)`
issued exactly when the previous value was one, otherwise the
decremented value stays stored and `wait()` is issued. A `Join` without
a `next` target issues no syscall when it proceeds. -/
def joinExecute (joins : List (Nat × Nat)) (node_index expect_count : Nat)
    (next : Option Nat) : List (Nat × Nat) × List Sys :=
  if (lookupA joins node_index).getD expect_count = 1 then
    (removeA joins node_index,
     match next with
     | some t => [Sys.jump t]
     | none => [])
  else
    (setA joins node_index ((lookupA joins node_index).getD expect_count - 1),
     [Sys.wait])

/-- `N` tokens arriving at the same join in sequence: iterate
`joinExecute`, collecting each arrival's syscalls. -/
def joinRunGo : Nat → List (Nat × Nat) → Nat → Nat → Option Nat →
    List (List Sys) × List (Nat × Nat)
  | 0, joins, _, _, _ => ([], joins)
  | k + 1, joins, idx, expect, next =>
      ((joinExecute joins idx expect next).2 ::
        (joinRunGo k (joinExecute joins idx expect next).1 idx expect next).1,
       (joinRunGo k (joinExecute joins idx expect next).1 idx expect next).2)

/-- `InMemoryStateStore::decrement_join_count` for one key: the entry
(`or_insert(initial_count)`) is decremented (`fetch_sub`), removed when
the post-decrement value is zero, and the post-decrement value is
returned. Counters in use are positive, so Nat subtraction is exact. -/
def inMemDecOne (entry : Option Nat) (initial_count : Nat) : Nat × Option Nat :=
  if entry.getD initial_count - 1 = 0 then (entry.getD initial_count - 1, none)
  else (entry.getD initial_count - 1, some (entry.getD initial_count - 1))

/-- `RedisStateStore::decrement_join_count`'s Lua script for one hash
field, over integers as Lua computes them: an absent field is set to
`init - 1` (unless that is exactly zero, in which case nothing is
stored); a present field is decremented, and deleted with return value 0
when the result is not positive. -/
def redisDecOne (entry : Option Int) (initial_count : Int) : Int × Option Int :=
  match entry with
  | none =>
      if initial_count - 1 = 0 then (0, none)
      else (initial_count - 1, some (initial_count - 1))
  | some current =>
      if current - 1 ≤ 0 then (0, none)
      else (current - 1, some (current - 1))

/-- Iterate `inMemDecOne` from a starting entry, collecting returns. -/
def inMemRun : Nat → Option Nat → Nat → List Nat × Option Nat
  | 0, e, _ => ([], e)
  | k + 1, e, n =>
      ((inMemDecOne e n).1 :: (inMemRun k (inMemDecOne e n).2 n).1,
       (inMemRun k (inMemDecOne e n).2 n).2)

/-- Iterate `redisDecOne` from a starting entry, collecting returns. -/
def redisRun : Nat → Option Int → Int → List Int × Option Int
  | 0, e, _ => ([], e)
  | k + 1, e, n =>
      ((redisDecOne e n).1 :: (redisRun k (redisDecOne e n).2 n).1,
       (redisRun k (redisDecOne e n).2 n).2)

/-! End node and the worker loop (`nodes/common.rs`, `runtime/engine.rs`). -/

/-- `EndNode::execute`: with a non-empty configured output variable, read
it and copy its value to `_WORKFLOW_OUTPUT` when present (only a warning
otherwise); always `terminate()`. -/
def endExecute (output_var : String) (s : State) : State × List Ev × List Sys :=
  if output_var = "" then (s, [], [Sys.terminate])
  else
    match getVar s output_var with
    | some val =>
        (setVar s "_WORKFLOW_OUTPUT" val,
         [Ev.read output_var (some val), Ev.write "_WORKFLOW_OUTPUT" val],
         [Sys.terminate])
    | none => (s, [Ev.read output_var none], [Sys.terminate])

/-- Number of writes to a given key in a trace. -/
def writeCount (evs : List Ev) (k : String) : Nat :=
  evs.countP (fun e =>
    match e with
    | .write k2 _ => k2 == k
    | _ => false)

/-- Outcome of one node execution as the worker's `match` sees it
(`Engine::run_worker`): success carries the syscall buffer's pending
follow-up tasks; errors and timeouts carry nothing. -/
inductive ExecOutcome where
  | success (pending : List Task) : ExecOutcome
  | failed : ExecOutcome
  | timedOut : ExecOutcome

/-- One worker dispatch step over the remaining queue: on success the
pending follow-up tasks are pushed; on error or timeout the failure is
only logged — the buffered tasks are never read — and the loop
continues. Returns the resulting queue and whether the worker keeps
running. -/
def workerDispatch (rest : List Task) (o : ExecOutcome) : List Task × Bool :=
  match o with
  | .success pending => (rest ++ pending, true)
  | .failed => (rest, true)
  | .timedOut => (rest, true)


/-! Claim C4: the decrement protocol of both state stores. -/

theorem inMemRun_pos (n : Nat) :
    ∀ c, inMemRun (c + 1) (some (c + 1)) n = ((List.range (c + 1)).reverse, none) := by
  intro c
  induction c with
  | zero => rfl
  | succ k ih =>
      have hd : inMemDecOne (some (k + 2)) n = (k + 1, some (k + 1)) := by
        simp [inMemDecOne]
      rw [inMemRun, hd]
      simp [ih, List.range_succ]

theorem redisRun_pos (ic : Int) :
    ∀ c : Nat, redisRun (c + 1) (some ((c + 1 : Nat) : Int)) ic =
      (((List.range (c + 1)).reverse).map (fun v : Nat => (v : Int)), none) := by
  intro c
  induction c with
  | zero =>
      have hd : redisDecOne (some ((1 : Nat) : Int)) ic = (0, none) := by
        simp [redisDecOne]
      rw [redisRun, hd]
      rfl
  | succ k ih =>
      have hd : redisDecOne (some ((k + 2 : Nat) : Int)) ic =
          (((k + 1 : Nat) : Int), some ((k + 1 : Nat) : Int)) := by
        simp only [redisDecOne]
        rw [show ((k + 2 : Nat) : Int) - 1 = ((k + 1 : Nat) : Int) from by
          push_cast; ring]
        rw [if_neg (by push_cast; omega)]
      rw [redisRun, hd, ih]
      simp [List.range_succ]

/-- Claim C4: from an absent counter, `N ≥ 1` sequential calls of
`decrement_join_count(…, N)` return exactly `N-1, N-2, …, 1, 0` (in that
order, hence that multiset), the entry is gone after the last call, the
entry is removed exactly when the returned value is zero, and the
in-memory store and the Redis script agree. -/
theorem c4_decrement_confirmed (n : Nat) (h : 1 ≤ n) :
    (inMemRun n none n).1 = (List.range n).reverse ∧
    (inMemRun n none n).2 = none ∧
    (redisRun n none ((n : Nat) : Int)).1 =
      ((List.range n).reverse).map (fun v : Nat => (v : Int)) ∧
    (redisRun n none ((n : Nat) : Int)).2 = none ∧
    (∀ e v e2, inMemDecOne e n = (v, e2) → (e2 = none ↔ v = 0)) ∧
    (∀ e v e2, redisDecOne e ((n : Nat) : Int) = (v, e2) → (e2 = none ↔ v = 0)) := by
  have hmem : inMemRun n none n = ((List.range n).reverse, none) := by
    match n, h with
    | 1, _ => rfl
    | (k + 2), _ =>
        have hd : inMemDecOne none (k + 2) = (k + 1, some (k + 1)) := by
          simp [inMemDecOne]
        rw [inMemRun, hd, inMemRun_pos (k + 2) k]
        simp [List.range_succ]
  have hred : redisRun n none ((n : Nat) : Int) =
      (((List.range n).reverse).map (fun v : Nat => (v : Int)), none) := by
    match n, h with
    | 1, _ => rfl
    | (k + 2), _ =>
        have hd : redisDecOne none ((k + 2 : Nat) : Int) =
            (((k + 1 : Nat) : Int), some ((k + 1 : Nat) : Int)) := by
          simp only [redisDecOne]
          rw [show ((k + 2 : Nat) : Int) - 1 = ((k + 1 : Nat) : Int) from by
            push_cast; ring]
          rw [if_neg (by push_cast; omega)]
        rw [redisRun, hd, redisRun_pos ((k + 2 : Nat) : Int) k]
        simp [List.range_succ]
  refine ⟨by rw [hmem], by rw [hmem], by rw [hred], by rw [hred], ?_, ?_⟩
  · intro e v e2 heq
    unfold inMemDecOne at heq
    split at heq
    · next h0 =>
        injection heq with h1 h2
        subst h1
        subst h2
        simp [h0]
    · next h0 =>
        injection heq with h1 h2
        subst h1
        subst h2
        simp [h0]
  · intro e v e2 heq
    cases e with
    | none =>
        replace heq : (if ((n : Nat) : Int) - 1 = 0 then ((0 : Int), (none : Option Int))
            else (((n : Nat) : Int) - 1, some (((n : Nat) : Int) - 1))) = (v, e2) := heq
        split at heq
        · next h0 =>
            injection heq with h1 h2
            subst h1
            subst h2
            simp
        · next h0 =>
            injection heq with h1 h2
            subst h1
            subst h2
            simp [h0]
    | some current =>
        replace heq : (if current - 1 ≤ 0 then ((0 : Int), (none : Option Int))
            else (current - 1, some (current - 1))) = (v, e2) := heq
        split at heq
        · next h0 =>
            injection heq with h1 h2
            subst h1
            subst h2
            simp
        · next h0 =>
            injection heq with h1 h2
            subst h1
            subst h2
            constructor
            · intro hc
              cases hc
            · intro hv
              exact absurd (by omega : current - 1 ≤ 0) h0

/-- Claim C4, witness: three calls from an absent counter with `N = 3`
return `2, 1, 0` in both stores. -/
theorem c4_decrement_confirmed_witness :
    (inMemRun 3 none 3).1 = [2, 1, 0] ∧
    (redisRun 3 none ((3 : Nat) : Int)).1 = [2, 1, 0] :=
  ⟨((c4_decrement_confirmed 3 (by decide)).1).trans (by rfl),
   ((c4_decrement_confirmed 3 (by decide)).2.2.1).trans (by rfl)⟩

/-! Claim C3: the join node against the store counter. -/

theorem joinRunGo_pos (idx n t : Nat) :
    ∀ c, joinRunGo (c + 1) [(idx, c + 1)] idx n (some t) =
      (List.replicate c [Sys.wait] ++ [[Sys.jump t]], []) := by
  intro c
  induction c with
  | zero =>
      have h1 : joinExecute [(idx, 1)] idx n (some t) = ([], [Sys.jump t]) := by
        unfold joinExecute
        have hl : lookupA [(idx, 1)] idx = some 1 := by
          rw [lookupA_cons]
          simp
        rw [hl]
        simp [removeA]
      rw [joinRunGo, h1]
      rfl
  | succ k ih =>
      have h1 : joinExecute [(idx, k + 2)] idx n (some t) =
          ([(idx, k + 1)], [Sys.wait]) := by
        unfold joinExecute
        have hl : lookupA [(idx, k + 2)] idx = some (k + 2) := by
          rw [lookupA_cons]
          simp
        rw [hl]
        simp only [Option.getD_some]
        rw [if_neg (by omega)]
        simp [setA]
      rw [joinRunGo, h1, ih]
      simp [List.replicate_succ]

theorem joinExecute_step (joins : List (Nat × Nat)) (idx n t : Nat)
    (h : 1 ≤ (lookupA joins idx).getD n) :
    joinExecute joins idx n (some t) =
      (match (inMemDecOne (lookupA joins idx) n).2 with
       | none => removeA joins idx
       | some w => setA joins idx w,
       if (inMemDecOne (lookupA joins idx) n).1 = 0 then [Sys.jump t]
       else [Sys.wait]) := by
  unfold joinExecute inMemDecOne
  by_cases h1 : (lookupA joins idx).getD n = 1
  · rw [if_pos h1, if_pos (show (lookupA joins idx).getD n - 1 = 0 from by omega)]
    simp [h1]
  · have hne : ¬((lookupA joins idx).getD n - 1 = 0) := by omega
    rw [if_neg h1, if_neg hne]
    show (setA joins idx ((lookupA joins idx).getD n - 1), [Sys.wait]) =
      (setA joins idx ((lookupA joins idx).getD n - 1),
       if (lookupA joins idx).getD n - 1 = 0 then [Sys.jump t] else [Sys.wait])
    rw [if_neg hne]

/-- Claim C3: with `expect_count = N ≥ 1` and an initially absent
counter, the first `N-1` tokens arriving at a join each issue a single
`wait()` (which enqueues no follow-up task) and the `N`-th issues
`jump(next)`; the counter entry is gone afterwards; and one join arrival
updates the counter exactly as one `decrement_join_count` call does,
proceeding precisely when the returned value is zero. -/
theorem c3_join_confirmed (n : Nat) (h : 1 ≤ n) (idx t : Nat) :
    (joinRunGo n [] idx n (some t)).1 =
      List.replicate (n - 1) [Sys.wait] ++ [[Sys.jump t]] ∧
    (joinRunGo n [] idx n (some t)).2 = [] ∧
    (∀ task fresh, sysTasks task fresh Sys.wait = []) ∧
    (∀ joins, 1 ≤ (lookupA joins idx).getD n →
      joinExecute joins idx n (some t) =
        (match (inMemDecOne (lookupA joins idx) n).2 with
         | none => removeA joins idx
         | some w => setA joins idx w,
         if (inMemDecOne (lookupA joins idx) n).1 = 0 then [Sys.jump t]
         else [Sys.wait])) := by
  have hrun : joinRunGo n [] idx n (some t) =
      (List.replicate (n - 1) [Sys.wait] ++ [[Sys.jump t]], []) := by
    match n, h with
    | 1, _ => rfl
    | (k + 2), _ =>
        have h0 : joinExecute [] idx (k + 2) (some t) =
            ([(idx, k + 1)], [Sys.wait]) := by
          unfold joinExecute
          rw [show lookupA ([] : List (Nat × Nat)) idx = none from rfl]
          simp only [Option.getD_none]
          rw [if_neg (by omega)]
          simp [setA]
        rw [joinRunGo, h0, joinRunGo_pos idx (k + 2) t k]
        simp [List.replicate_succ]
  exact ⟨by rw [hrun], by rw [hrun], fun task fresh => rfl,
    fun joins hj => joinExecute_step joins idx n t hj⟩

/-- Claim C3, witness: three tokens at a join with `expect_count = 3`
produce two waits and one jump. -/
theorem c3_join_confirmed_witness :
    (joinRunGo 3 [] 7 3 (some 9)).1 = [[Sys.wait], [Sys.wait], [Sys.jump 9]] :=
  ((c3_join_confirmed 3 (by decide) 7 9).1).trans (by rfl)

/-! Claim C8: the End node. -/

/-- Claim C8, counterexample: a token reaching an End node configured
with output variable `result` while the store has no such variable
writes `_WORKFLOW_OUTPUT` zero times — not exactly once as claimed —
and still terminates. -/
theorem c8_counterexample :
    writeCount (endExecute "result" []).2.1 "_WORKFLOW_OUTPUT" = 0 ∧
    (endExecute "result" []).2.2 = [Sys.terminate] :=
  ⟨rfl, rfl⟩

/-- Claim C8 (amended): an End node with a non-empty output variable
that is present in the store writes `_WORKFLOW_OUTPUT` exactly once,
copying that variable's value, and terminates with no follow-up task;
in general the write happens exactly once precisely when the output
variable is configured and present, and `terminate()` is always
issued. -/
theorem c8_end_amended (output : String) (s : State) (v : Json)
    (ho : output ≠ "") (hv : getVar s output = some v) :
    endExecute output s = (setVar s "_WORKFLOW_OUTPUT" v,
      [Ev.read output (some v), Ev.write "_WORKFLOW_OUTPUT" v], [Sys.terminate]) ∧
    writeCount (endExecute output s).2.1 "_WORKFLOW_OUTPUT" = 1 ∧
    (∀ o2 s2, (endExecute o2 s2).2.2 = [Sys.terminate]) ∧
    (∀ o2 s2, writeCount (endExecute o2 s2).2.1 "_WORKFLOW_OUTPUT" =
      if o2 = "" then 0 else if (getVar s2 o2).isSome = true then 1 else 0) ∧
    (∀ task fresh, sysTasks task fresh Sys.terminate = []) := by
  have he : endExecute output s = (setVar s "_WORKFLOW_OUTPUT" v,
      [Ev.read output (some v), Ev.write "_WORKFLOW_OUTPUT" v], [Sys.terminate]) := by
    unfold endExecute
    rw [if_neg ho, hv]
  refine ⟨he, by rw [he]; rfl, ?_, ?_, fun task fresh => rfl⟩
  · intro o2 s2
    unfold endExecute
    by_cases h2 : o2 = ""
    · rw [if_pos h2]
    · rw [if_neg h2]
      cases hg : getVar s2 o2 with
      | some v2 => rfl
      | none => rfl
  · intro o2 s2
    unfold endExecute
    by_cases h2 : o2 = ""
    · rw [if_pos h2, if_pos h2]
      rfl
    · rw [if_neg h2, if_neg h2]
      cases hg : getVar s2 o2 with
      | some v2 => rfl
      | none => rfl

/-- Claim C8, witness: the amended theorem at a store holding the
configured output variable. -/
theorem c8_end_amended_witness :
    endExecute "result" [("result", Json.num 5)] =
      ([("result", Json.num 5), ("_WORKFLOW_OUTPUT", Json.num 5)],
       [Ev.read "result" (some (Json.num 5)),
        Ev.write "_WORKFLOW_OUTPUT" (Json.num 5)], [Sys.terminate]) :=
  ((c8_end_amended "result" [("result", Json.num 5)] (Json.num 5)
    (by decide) rfl).1).trans (by rfl)

/-! Claim C9: the worker's failure handling. -/

/-- Claim C9: when a node execution ends in an error or a timeout, the
worker enqueues none of the follow-up tasks the node had buffered (the
match arms never read them), keeps the rest of the queue untouched —so
tokens of other branches are unaffected — and continues processing. -/
theorem c9_worker_confirmed (rest : List Task) (o : ExecOutcome)
    (h : o = ExecOutcome.failed ∨ o = ExecOutcome.timedOut) :
    workerDispatch rest o = (rest, true) := by
  rcases h with h | h
  · subst h
    rfl
  · subst h
    rfl

/-- Claim C9, witness: a failed execution leaves the two queued sibling
tasks untouched and the worker running. -/
theorem c9_worker_confirmed_witness :
    workerDispatch [⟨1, "w", 2, 3, 4⟩, ⟨1, "w", 5, 6, 7⟩] ExecOutcome.failed =
      ([⟨1, "w", 2, 3, 4⟩, ⟨1, "w", 5, 6, 7⟩], true) :=
  c9_worker_confirmed [⟨1, "w", 2, 3, 4⟩, ⟨1, "w", 5, 6, 7⟩] ExecOutcome.failed
    (Or.inl rfl)


/-! Claim C2: fused execution versus the original chain. -/

/-- The syscalls of the chain's final member: a jump to the tail's
`next` when there is one. -/
def tailJumpSys (ops : List (String × Json)) : List Sys :=
  match ops.getLast? with
  | some op =>
      match (op.2.getKey "next").bind Json.asU64 with
      | some t => [Sys.jump t]
      | none => []
  | none => []

/-- An evaluator that always fails (no variable is convertible). -/
def evalNone : EvalFn := fun _ _ => none

theorem resolveField_id (s : State) (kv : String × Json)
    (h : ∀ sv, kv.2 = Json.str sv → refName sv = none) :
    resolveField s kv = ((kv.1, kv.2), []) := by
  obtain ⟨k, v⟩ := kv
  cases v with
  | str sv =>
      show (match refName sv with
        | some name =>
            ((k, (getVar s name).getD (Json.str sv)), [Ev.read name (getVar s name)])
        | none => ((k, Json.str sv), [])) = ((k, Json.str sv), [])
      rw [h sv rfl]
  | null => rfl
  | bool b => rfl
  | num n => rfl
  | arr xs => rfl
  | obj fs => rfl

theorem resolveFields_map_id (s : State) :
    ∀ (fields : List (String × Json)),
      (∀ kv ∈ fields, resolveField s kv = ((kv.1, kv.2), [])) →
      fields.map (fun kv => (resolveField s kv).1) = fields := by
  intro fields
  induction fields with
  | nil => intro _; rfl
  | cons q qs ih =>
      intro hf
      rw [List.map_cons, hf q (List.mem_cons_self q qs),
        ih (fun kv hkv => hf kv (List.mem_cons_of_mem q hkv))]

theorem resolveFields_flat_nil (s : State) :
    ∀ (fields : List (String × Json)),
      (∀ kv ∈ fields, resolveField s kv = ((kv.1, kv.2), [])) →
      fields.flatMap (fun kv => (resolveField s kv).2) = [] := by
  intro fields
  induction fields with
  | nil => intro _; rfl
  | cons q qs ih =>
      intro hf
      rw [List.flatMap_cons, hf q (List.mem_cons_self q qs),
        ih (fun kv hkv => hf kv (List.mem_cons_of_mem q hkv))]
      rfl

theorem resolveParams_id (s : State) (p : Json) (h : noPlaceholders p = true) :
    resolveParams s p = (p, []) := by
  cases p with
  | obj fields =>
      replace h : fields.all (fun kv =>
          match kv.2 with
          | Json.str sv => (refName sv).isNone
          | _ => true) = true := h
      have hf : ∀ kv ∈ fields, resolveField s kv = ((kv.1, kv.2), []) := by
        intro kv hkv
        apply resolveField_id
        intro sv hsv
        have hx := List.all_eq_true.mp h kv hkv
        rw [hsv] at hx
        replace hx : (refName sv).isNone = true := hx
        exact Option.isNone_iff_eq_none.mp hx
      unfold resolveParams
      show (Json.obj (fields.map (fun kv => (resolveField s kv).1)),
        fields.flatMap (fun kv => (resolveField s kv).2)) = (Json.obj fields, [])
      rw [resolveFields_map_id s fields hf, resolveFields_flat_nil s fields hf]
  | null => rfl
  | bool b => rfl
  | num n => rfl
  | str sv => rfl
  | arr xs => rfl

/-- With no dollar-brace parameters, executing the chain member by
member is the fused op loop followed by the tail's jump. -/
theorem chain_eq_fused (ev : EvalFn) :
    ∀ (ops : List (String × Json)) (s : State),
      (∀ op ∈ ops, noPlaceholders op.2 = true) →
      runActionChain ev ops s =
        (runFusedOps ev ops s).map (fun r => (r.1, r.2, tailJumpSys ops)) := by
  intro ops
  induction ops with
  | nil => intro s _; rfl
  | cons op rest ih =>
      intro s hp
      obtain ⟨kind, params⟩ := op
      have hrp : resolveParams s params = (params, []) :=
        resolveParams_id s params (hp (kind, params) (List.mem_cons_self _ _))
      have hrp1 : (resolveParams s params).1 = params := by rw [hrp]
      have hrp2 : (resolveParams s params).2 = [] := by rw [hrp]
      have hrest : ∀ op2 ∈ rest, noPlaceholders op2.2 = true :=
        fun op2 hop => hp op2 (List.mem_cons_of_mem _ hop)
      rw [runActionChain, runFusedOps]
      unfold runAction
      rw [hrp1, hrp2]
      cases hh : handlerExec ev kind params s with
      | none => rfl
      | some r =>
          obtain ⟨s1, evs1, result⟩ := r
          cases ho : (params.getKey "output").bind Json.asStr with
          | some o =>
              show (match runActionChain ev rest (setVar s1 o result) with
                | none => none
                | some (s2, evs2, sys2) =>
                    some (s2, ([] ++ evs1 ++ [Ev.write o result]) ++ evs2,
                      if rest.isEmpty = true then
                        (match (params.getKey "next").bind Json.asU64 with
                         | some t => [Sys.jump t]
                         | none => [])
                      else sys2)) =
                Option.map (fun r => (r.1, r.2, tailJumpSys ((kind, params) :: rest)))
                  (match runFusedOps ev rest (setVar s1 o result) with
                   | none => none
                   | some (s3, evs3) => some (s3, evs1 ++ [Ev.write o result] ++ evs3))
              rw [ih (setVar s1 o result) hrest]
              cases hf : runFusedOps ev rest (setVar s1 o result) with
              | none => rfl
              | some r2 =>
                  obtain ⟨s3, evs3⟩ := r2
                  cases rest with
                  | nil =>
                      replace hf : some (setVar s1 o result, ([] : List Ev)) =
                        some (s3, evs3) := hf
                      injection hf with hf
                      injection hf with hf1 hf2
                      subst hf1
                      subst hf2
                      simp [tailJumpSys]
                  | cons q qs =>
                      simp [tailJumpSys]
          | none =>
              show (match runActionChain ev rest s1 with
                | none => none
                | some (s2, evs2, sys2) =>
                    some (s2, ([] ++ evs1) ++ evs2,
                      if rest.isEmpty = true then
                        (match (params.getKey "next").bind Json.asU64 with
                         | some t => [Sys.jump t]
                         | none => [])
                      else sys2)) =
                Option.map (fun r => (r.1, r.2, tailJumpSys ((kind, params) :: rest)))
                  (match runFusedOps ev rest s1 with
                   | none => none
                   | some (s3, evs3) => some (s3, evs1 ++ evs3))
              rw [ih s1 hrest]
              cases hf : runFusedOps ev rest s1 with
              | none => rfl
              | some r2 =>
                  obtain ⟨s3, evs3⟩ := r2
                  cases rest with
                  | nil =>
                      replace hf : some (s1, ([] : List Ev)) = some (s3, evs3) := hf
                      injection hf with hf
                      injection hf with hf1 hf2
                      subst hf1
                      subst hf2
                      simp [tailJumpSys]
                  | cons q qs =>
                      simp [tailJumpSys]

/-- `FusedNodeDefinition::prepare` accepts exactly the optimizer's op
records when every kind is a registered sync operation. -/
theorem mapMO_fusedOpOf (ops : List (String × Json))
    (hk : ∀ op ∈ ops, op.1 = "log" ∨ op.1 = "assign") :
    mapMO fusedOpOf (ops.map (fun op =>
      Json.obj [("kind", Json.str op.1), ("params", op.2)])) = some ops := by
  induction ops with
  | nil => rfl
  | cons op rest ih =>
      obtain ⟨kind, params⟩ := op
      have hop : fusedOpOf (Json.obj [("kind", Json.str kind), ("params", params)]) =
          some (kind, params) := by
        rcases hk (kind, params) (List.mem_cons_self _ _) with h | h <;> subst h <;> rfl
      rw [List.map_cons, mapMO, hop,
        ih (fun op2 hop2 => hk op2 (List.mem_cons_of_mem _ hop2))]

/-- The fused node's own jump equals the chain tail's jump. -/
theorem fused_next_sys (ops : List (String × Json)) :
    (match ((mkFusedParams ops).getKey "next").bind Json.asU64 with
     | some t => [Sys.jump t]
     | none => ([] : List Sys)) = tailJumpSys ops := by
  unfold mkFusedParams tailJumpSys
  cases hl : ops.getLast? with
  | none => rfl
  | some op =>
      show (match ((op.2.getKey "next").getD Json.null).asU64 with
        | some t => [Sys.jump t]
        | none => ([] : List Sys)) =
        (match (op.2.getKey "next").bind Json.asU64 with
         | some t => [Sys.jump t]
         | none => [])
      cases hn : op.2.getKey "next" with
      | none => rfl
      | some j => rfl

/-- Claim C2 (amended): for chains of registered sync operations (`log`
and `assign`) none of whose parameters is a top-level dollar-brace
variable reference, the fused node built by the optimizer produces
exactly the same store-event trace, final store, and final control
transfer as executing the original nodes one at a time. (Without the
placeholder restriction the claim fails: see the counterexample — the
fused path skips `ActionNode`'s reference resolution.) -/
theorem c2_fusion_amended (ev : EvalFn) (ops : List (String × Json)) (s : State)
    (hk : ∀ op ∈ ops, op.1 = "log" ∨ op.1 = "assign")
    (hp : ∀ op ∈ ops, noPlaceholders op.2 = true) :
    runFusedFromParams ev (mkFusedParams ops) s = runActionChain ev ops s := by
  unfold runFusedFromParams
  rw [show ((mkFusedParams ops).getKey "ops").bind Json.asArr =
    some (ops.map (fun op => Json.obj [("kind", Json.str op.1), ("params", op.2)]))
    from rfl]
  show (match mapMO fusedOpOf (ops.map (fun op =>
      Json.obj [("kind", Json.str op.1), ("params", op.2)])) with
    | none => none
    | some ops2 =>
      match runFusedOps ev ops2 s with
      | none => none
      | some (s2, evs) =>
        some (s2, evs,
          match ((mkFusedParams ops).getKey "next").bind Json.asU64 with
          | some t => [Sys.jump t]
          | none => [])) = runActionChain ev ops s
  rw [mapMO_fusedOpOf ops hk]
  show (match runFusedOps ev ops s with
    | none => none
    | some (s2, evs) =>
      some (s2, evs,
        match ((mkFusedParams ops).getKey "next").bind Json.asU64 with
        | some t => [Sys.jump t]
        | none => [])) = runActionChain ev ops s
  rw [chain_eq_fused ev ops s hp]
  cases hf : runFusedOps ev ops s with
  | none => rfl
  | some r =>
      obtain ⟨s2, evs⟩ := r
      show some (s2, evs,
        match ((mkFusedParams ops).getKey "next").bind Json.asU64 with
        | some t => [Sys.jump t]
        | none => []) = some (s2, evs, tailJumpSys ops)
      rw [fused_next_sys ops]

/-- Claim C2 (amended), witness: a two-op assign chain with plain
parameters runs identically fused and unfused. -/
theorem c2_fusion_amended_witness :
    runFusedFromParams evalNone (mkFusedParams
      [("assign", Json.obj [("value", Json.num 10), ("output", Json.str "a"),
        ("next", Json.ofNat 2)]),
       ("log", Json.obj [("msg", Json.str "done"), ("next", Json.ofNat 3)])]) [] =
    runActionChain evalNone
      [("assign", Json.obj [("value", Json.num 10), ("output", Json.str "a"),
        ("next", Json.ofNat 2)]),
       ("log", Json.obj [("msg", Json.str "done"), ("next", Json.ofNat 3)])] [] :=
  c2_fusion_amended evalNone _ []
    (by
      intro op h
      rcases List.mem_cons.mp h with h | h
      · rw [h]
        exact Or.inr rfl
      · rw [List.mem_singleton] at h
        rw [h]
        exact Or.inl rfl)
    (by
      intro op h
      rcases List.mem_cons.mp h with h | h
      · rw [h]
        rfl
      · rw [List.mem_singleton] at h
        rw [h]
        rfl)

/-- The workflow of the C2 counterexample: assign a constant to `a`,
then assign the dollar-brace reference to `a` into `y`. -/
def c2wf : Workflow :=
  { id := "w2", name := "", vars := [],
    nodes := [Node.mk "s" .start,
      Node.mk "a" (.function "assign" [("value", Json.num 10)] (some "a")),
      Node.mk "b" (.function "assign" [("value", Json.str "$\x7ba\x7d")] (some "y")),
      Node.mk "e" (.endNode "")],
    edges := [plainEdge "s" "a", plainEdge "a" "b", plainEdge "b" "e"] }

/-- The compiled blueprint of `c2wf`. -/
def c2bp : Blueprint := (compile c2wf).toOption.getD ⟨"", "", [], 0⟩

/-- The optimized blueprint of `c2wf`: nodes 1 and 2 fuse. -/
def c2bp2 : Blueprint := (optimize builtinSyncLookup 10 c2bp).getD ⟨"", "", [], 0⟩

/-- The fused node the optimizer produced. -/
def c2fused : BlueprintNode := c2bp2.nodes.getD 1 defaultBN

/-- The original chain members (kind and params of blueprint nodes 1
and 2). -/
def c2ops : List (String × Json) :=
  [((c2bp.nodes.getD 1 defaultBN).kind, (c2bp.nodes.getD 1 defaultBN).params),
   ((c2bp.nodes.getD 2 defaultBN).kind, (c2bp.nodes.getD 2 defaultBN).params)]

/-- Whether the final store's `y` is a string, as an observation of a
run's outcome. -/
def obsY (r : Option (State × List Ev × List Sys)) : Option Bool :=
  r.bind (fun p => (lookupA p.1 "y").map Json.isStr)

/-- Claim C2, counterexample: on `c2wf` the optimizer fuses the two
assigns, and executing the fused node leaves `y` bound to the literal
string `$` + `{a}` (the dollar-brace reference is never resolved),
while executing the original chain resolves it and leaves `y` bound to
the number 10 — the observable stores differ. -/
theorem c2_counterexample :
    c2fused.kind = "fused" ∧
    obsY (runFusedFromParams evalNone c2fused.params []) = some true ∧
    obsY (runActionChain evalNone c2ops []) = some false :=
  ⟨rfl, rfl, rfl⟩
